import Mathlib

set_option maxRecDepth 8000

/-!
Shallow embedding of the HTTP file server (`server.py`) and client
(`client.py`).  Python strings are modelled as lists of Unicode code
points (`PyStr`), raw socket data as lists of byte values (`List Nat`).
Filesystem access is abstracted as an `FS` record of query functions,
mirroring the `os.path` probes the handler performs.
-/

namespace HttpSpec

/-- Python strings modelled as their lists of Unicode code points. -/
abbrev PyStr := List Char

/-- View a Lean string literal as a modelled Python string. -/
def str (s : String) : PyStr := s.data

/-- ASCII whitespace as recognised by Python `str.split()` / `str.strip()`
(the text handled here is ASCII, so Python's additional Unicode whitespace
is irrelevant to the model). -/
def py_is_space (c : Char) : Bool :=
  c == ' ' || c == '\t' || c == '\n' || c == '\r' || c == '\x0b' || c == '\x0c'

/-- `seq_starts pat l` is true when `pat` is an initial run of `l`
(Python `l.startswith(pat)`). -/
def seq_starts {α} [DecidableEq α] : List α → List α → Bool
  | [], _ => true
  | _ :: _, [] => false
  | p :: ps, c :: cs => if p = c then seq_starts ps cs else false

/-- `seq_in pat l` is true when `pat` occurs contiguously inside `l`
(Python `pat in l` for strings). -/
def seq_in {α} [DecidableEq α] (pat : List α) : List α → Bool
  | [] => seq_starts pat []
  | l@(_ :: rest) => seq_starts pat l || seq_in pat rest

/-- Python `l.endswith(pat)`. -/
def ends_with {α} [DecidableEq α] (l pat : List α) : Bool :=
  seq_starts pat.reverse l.reverse

/-- Python `request.split('\n')[0]`: the text before the first newline. -/
def up_to_nl : PyStr → PyStr
  | [] => []
  | c :: rest => if c = '\n' then [] else c :: up_to_nl rest

/-- Python `str.strip()` (ASCII whitespace). -/
def py_strip (s : PyStr) : PyStr :=
  ((s.dropWhile py_is_space).reverse.dropWhile py_is_space).reverse

/-- Worker for `py_split_ws`: `acc` is the current word, reversed. -/
def py_split_ws_aux : PyStr → PyStr → List PyStr
  | acc, [] => if acc = [] then [] else [acc.reverse]
  | acc, c :: rest =>
    if py_is_space c then
      if acc = [] then py_split_ws_aux [] rest
      else acc.reverse :: py_split_ws_aux [] rest
    else py_split_ws_aux (c :: acc) rest

/-- Python `str.split()` with no separator: split on whitespace runs,
no empty words. -/
def py_split_ws (s : PyStr) : List PyStr := py_split_ws_aux [] s

/-- Python `str.lower()` (ASCII; the extensions and header names compared
in the source are ASCII). -/
def py_lower (s : PyStr) : PyStr := s.map Char.toLower

/-- Value of a hexadecimal digit character, if it is one. -/
def hex_val (c : Char) : Option Nat :=
  if '0' ≤ c ∧ c ≤ '9' then some (c.toNat - 48)
  else if 'a' ≤ c ∧ c ≤ 'f' then some (c.toNat - 87)
  else if 'A' ≤ c ∧ c ≤ 'F' then some (c.toNat - 55)
  else none

/-- Is a byte a UTF-8 continuation byte? -/
def utf8_cont (b : Nat) : Bool := 0x80 ≤ b && b ≤ 0xBF

/-- Valid second byte for a three-byte UTF-8 sequence with first byte `b1`
(excludes overlong forms and surrogates, as CPython's decoder does). -/
def utf8_cont3 (b1 b2 : Nat) : Bool :=
  if b1 = 0xE0 then 0xA0 ≤ b2 && b2 ≤ 0xBF
  else if b1 = 0xED then 0x80 ≤ b2 && b2 ≤ 0x9F
  else utf8_cont b2

/-- Valid second byte for a four-byte UTF-8 sequence with first byte `b1`. -/
def utf8_cont4 (b1 b2 : Nat) : Bool :=
  if b1 = 0xF0 then 0x90 ≤ b2 && b2 ≤ 0xBF
  else if b1 = 0xF4 then 0x80 ≤ b2 && b2 ≤ 0x8F
  else utf8_cont b2

/-- Worker for `utf8_decode_with`: the fuel argument — the length of the
byte list at the top call — only makes the recursion structural (every
step consumes at least one byte); the `0` case is unreachable. -/
def utf8_decode_go (err : List Char) : Nat → List Nat → List Char
  | _, [] => []
  | 0, _ => []
  | fuel + 1, b :: rest =>
    if b < 0x80 then Char.ofNat b :: utf8_decode_go err fuel rest
    else if 0xC2 ≤ b && b ≤ 0xDF then
      match rest with
      | [] => err
      | b2 :: rest2 =>
        if utf8_cont b2 then
          Char.ofNat ((b - 0xC0) * 64 + (b2 - 0x80)) :: utf8_decode_go err fuel rest2
        else err ++ utf8_decode_go err fuel (b2 :: rest2)
    else if 0xE0 ≤ b && b ≤ 0xEF then
      match rest with
      | [] => err
      | b2 :: rest2 =>
        if utf8_cont3 b b2 then
          match rest2 with
          | [] => err
          | b3 :: rest3 =>
            if utf8_cont b3 then
              Char.ofNat (((b - 0xE0) * 64 + (b2 - 0x80)) * 64 + (b3 - 0x80)) ::
                utf8_decode_go err fuel rest3
            else err ++ utf8_decode_go err fuel (b3 :: rest3)
        else err ++ utf8_decode_go err fuel (b2 :: rest2)
    else if 0xF0 ≤ b && b ≤ 0xF4 then
      match rest with
      | [] => err
      | b2 :: rest2 =>
        if utf8_cont4 b b2 then
          match rest2 with
          | [] => err
          | b3 :: rest3 =>
            if utf8_cont b3 then
              match rest3 with
              | [] => err
              | b4 :: rest4 =>
                if utf8_cont b4 then
                  Char.ofNat ((((b - 0xF0) * 64 + (b2 - 0x80)) * 64 + (b3 - 0x80)) * 64
                      + (b4 - 0x80)) :: utf8_decode_go err fuel rest4
                else err ++ utf8_decode_go err fuel (b4 :: rest4)
            else err ++ utf8_decode_go err fuel (b3 :: rest3)
        else err ++ utf8_decode_go err fuel (b2 :: rest2)
    else err ++ utf8_decode_go err fuel rest

/-- UTF-8 decoding with an error action: each maximal invalid subpart
contributes `err` to the output (CPython semantics: `err = []` models
`errors='ignore'`, `err = [U+FFFD]` models `errors='replace'`). -/
def utf8_decode_with (err : List Char) (bs : List Nat) : List Char :=
  utf8_decode_go err bs.length bs

/-- `bytes.decode('utf-8', 'ignore')` (server.py line 58). -/
def utf8_decode_ignore : List Nat → List Char := utf8_decode_with []

/-- `bytes.decode('utf-8', 'replace')`, used inside `urllib.parse.unquote`. -/
def utf8_decode_replace : List Nat → List Char := utf8_decode_with [Char.ofNat 0xFFFD]

/-- `bytes.decode('latin-1')`: byte-preserving, each byte becomes the code
point of the same value (client.py lines 36 and 39). -/
def latin1_decode (bs : List Nat) : PyStr := bs.map Char.ofNat

/-- UTF-8 encoding of one code point. -/
def utf8_encode_char (c : Char) : List Nat :=
  let n := c.toNat
  if n < 0x80 then [n]
  else if n < 0x800 then [0xC0 + n / 64, 0x80 + n % 64]
  else if n < 0x10000 then [0xE0 + n / 4096, 0x80 + n / 64 % 64, 0x80 + n % 64]
  else [0xF0 + n / 262144, 0x80 + n / 4096 % 64, 0x80 + n / 64 % 64, 0x80 + n % 64]

/-- Python `str.encode('utf-8')`. -/
def utf8_encode (s : PyStr) : List Nat := (s.map utf8_encode_char).flatten

/-- Worker for `urllib_unquote`: `acc` holds the bytes of the current run
of `%XX` escapes, which Python decodes as UTF-8 with `errors='replace'`
once the run ends. -/
def urllib_unquote_go : List Nat → PyStr → PyStr
  | acc, [] => utf8_decode_replace acc
  | acc, '%' :: h1 :: h2 :: rest =>
    match hex_val h1, hex_val h2 with
    | some a, some b => urllib_unquote_go (acc ++ [16 * a + b]) rest
    | _, _ => utf8_decode_replace acc ++ '%' :: urllib_unquote_go [] (h1 :: h2 :: rest)
  | acc, '%' :: [h1] => utf8_decode_replace acc ++ '%' :: urllib_unquote_go [] [h1]
  | acc, ['%'] => utf8_decode_replace acc ++ ['%']
  | acc, c :: rest => utf8_decode_replace acc ++ c :: urllib_unquote_go [] rest

/-- `urllib.parse.unquote` (server.py line 65): percent-decodes; runs of
`%XX` escapes are decoded as UTF-8 bytes with `errors='replace'`; invalid
escapes are kept literally. -/
def urllib_unquote (s : PyStr) : PyStr := urllib_unquote_go [] s

/-- Bytes that `urllib.parse.quote` leaves unescaped with the default
`safe='/'`: ASCII alphanumerics, `_ . - ~` and `/`. -/
def quote_safe_byte (b : Nat) : Bool :=
  (65 ≤ b && b ≤ 90) || (97 ≤ b && b ≤ 122) || (48 ≤ b && b ≤ 57) ||
  b == 95 || b == 46 || b == 45 || b == 126 || b == 47

/-- Uppercase hexadecimal digit for a value below 16. -/
def hex_upper (n : Nat) : Char :=
  if n < 10 then Char.ofNat (48 + n) else Char.ofNat (55 + n)

/-- `urllib.parse.quote` (server.py line 40): UTF-8 encode, keep safe
bytes, percent-escape the rest with uppercase hex. -/
def urllib_quote (s : PyStr) : PyStr :=
  ((utf8_encode s).map (fun b =>
    if quote_safe_byte b then [Char.ofNat b]
    else ['%', hex_upper (b / 16), hex_upper (b % 16)])).flatten

/-- `posixpath.join` restricted to two components, as used in the server. -/
def os_path_join (a b : PyStr) : PyStr :=
  if seq_starts (str "/") b then b
  else if a = [] || ends_with a (str "/") then a ++ b
  else a ++ '/' :: b

/-- Python `s.split('/')`. -/
def split_slash : PyStr → List PyStr
  | [] => [[]]
  | c :: rest =>
    if c = '/' then [] :: split_slash rest
    else
      match split_slash rest with
      | h :: t => (c :: h) :: t
      | [] => [[c]]

/-- `posixpath.normpath` (server.py line 36), translated clause by clause
from CPython. -/
def os_path_normpath (p : PyStr) : PyStr :=
  if p = [] then str "." else
  let initial_slashes : Nat :=
    if seq_starts (str "//") p && !seq_starts (str "///") p then 2
    else if seq_starts (str "/") p then 1 else 0
  let comps := split_slash p
  let new_comps := comps.foldl (fun acc comp =>
    if comp = [] || comp = str "." then acc
    else if comp ≠ str ".." || (initial_slashes = 0 && acc = []) ||
        (acc ≠ [] && acc.getLast? = some (str "..")) then acc ++ [comp]
    else if acc ≠ [] then acc.dropLast
    else acc) []
  let res := List.replicate initial_slashes '/' ++ List.intercalate (str "/") new_comps
  if res = [] then str "." else res

/-- Python `s.rfind(c)`: index of the last occurrence, `-1` if absent. -/
def py_rfind (c : Char) (s : PyStr) : Int :=
  match s.reverse.findIdx? (· = c) with
  | some i => (s.length : Int) - 1 - i
  | none => -1

/-- The extension part of `os.path.splitext` (server.py line 108):
everything from the last dot of the basename, unless the basename has
only leading dots. -/
def os_path_splitext_ext (p : PyStr) : PyStr :=
  let sepIndex := py_rfind '/' p
  let dotIndex := py_rfind '.' p
  if sepIndex < dotIndex then
    let beforeDot := (p.take dotIndex.toNat).drop (sepIndex + 1).toNat
    if beforeDot.any (fun c => c ≠ '.') then p.drop dotIndex.toNat else []
  else []

/-- The `SUPPORTED_MIMES` table (server.py lines 10-14). -/
def SUPPORTED_MIMES : List (PyStr × PyStr) :=
  [(str ".html", str "text/html"),
   (str ".png", str "image/png"),
   (str ".pdf", str "application/pdf")]

/-- `SUPPORTED_MIMES.get(ext)`. -/
def mimes_get (ext : PyStr) : Option PyStr :=
  (SUPPORTED_MIMES.find? (fun kv => kv.1 = ext)).map (·.2)

/-- Modelled from CPython's built-in `mimetypes` default table: the
fragment of `types_map` entries relevant here (`mimetypes.init()` may add
system-specific entries but never removes the built-ins, and
`add_type('application/pdf', '.pdf')` on line 9 re-adds an entry the
built-ins already carry).  Only the extension lookup of `guess_type` is
modelled; its URL parsing and encoding-suffix handling do not apply to
plain file paths with these extensions. -/
def mimetypes_table : List (PyStr × PyStr) :=
  [(str ".htm", str "text/html"),
   (str ".html", str "text/html"),
   (str ".txt", str "text/plain"),
   (str ".png", str "image/png"),
   (str ".pdf", str "application/pdf"),
   (str ".jpg", str "image/jpeg"),
   (str ".jpeg", str "image/jpeg"),
   (str ".gif", str "image/gif"),
   (str ".css", str "text/css"),
   (str ".js", str "text/javascript"),
   (str ".xml", str "text/xml")]

/-- `mimetypes.guess_type(path)[0]` (server.py line 109). -/
def mimetypes_guess_type (p : PyStr) : Option PyStr :=
  (mimetypes_table.find? (fun kv => kv.1 = py_lower (os_path_splitext_ext p))).map (·.2)

/-- The effective content-type classification of server.py lines 108-111:
fixed table first (Python `or` falls through on `None`), then the library
guess, then the allow-list filter of line 111; `none` is answered with
HTTP 404 by the handler. -/
def classify (local_path : PyStr) : Option PyStr :=
  let ext := py_lower (os_path_splitext_ext local_path)
  let mime_type :=
    match mimes_get ext with
    | some m => some m
    | none => mimetypes_guess_type local_path
  match mime_type with
  | none => none
  | some m => if (SUPPORTED_MIMES.map Prod.snd).contains m then some m else none

/-- Decimal digits of a Nat, most significant first (`f'{n}'`), with
explicit fuel so that the definition reduces in the kernel. -/
def nat_digits_go : Nat → Nat → PyStr
  | 0, n => [Char.ofNat (48 + n % 10)]
  | fuel + 1, n =>
    if n < 10 then [Char.ofNat (48 + n)]
    else nat_digits_go fuel (n / 10) ++ [Char.ofNat (48 + n % 10)]

/-- Decimal rendering of a Nat. -/
def nat_digits (n : Nat) : PyStr := nat_digits_go n n

/-- Python `int()` on a string of decimal digits (client.py line 100). -/
def py_int_digits (s : PyStr) : Nat :=
  s.foldl (fun a c => a * 10 + (c.toNat - 48)) 0

/-- An HTTP response as the server constructs it: the status line and
header lines in order, plus the raw body bytes. -/
structure HttpResponse where
  headers : List PyStr
  body : List Nat
deriving DecidableEq

/-- `send_response` (server.py lines 122-130): status line plus the four
headers Date, Content-Type, Content-Length, Connection.  The `Date` value
is the formatted current time, passed in as `now`. -/
def send_response (now : PyStr) (status_code : Nat) (status_text content_type : PyStr)
    (body : List Nat) : HttpResponse :=
  { headers := [
      str "HTTP/1.1 " ++ nat_digits status_code ++ ' ' :: status_text,
      str "Date: " ++ now,
      str "Content-Type: " ++ content_type,
      str "Content-Length: " ++ nat_digits body.length,
      str "Connection: close"],
    body := body }

/-- `send_404` (server.py lines 134-137). -/
def send_404 (now msg : PyStr) : HttpResponse :=
  send_response now 404 (str "Not Found") (str "text/html; charset=utf-8")
    (utf8_encode (str "<html><body><h1>404 Not Found</h1><p>" ++ msg
      ++ str "</p></body></html>"))

/-- Default message of `send_404`. -/
def default_404_msg : PyStr := str "The requested file or resource was not found."

/-- The inline 301 redirect response (server.py lines 94-100). -/
def redirect_response (now redirect_url : PyStr) : HttpResponse :=
  { headers := [
      str "HTTP/1.1 301 Moved Permanently",
      str "Location: " ++ redirect_url,
      str "Date: " ++ now,
      str "Content-Length: 0",
      str "Connection: close"],
    body := [] }

/-- `'\r\n'.join(headers)`. -/
def crlf_join (lines : List PyStr) : PyStr := List.intercalate (str "\r\n") lines

/-- Wire encoding of a response (server.py lines 101 and 131):
`'\r\n'.join(headers).encode('utf-8') + b'\r\n\r\n' + body`. -/
def encode_response (r : HttpResponse) : List Nat :=
  utf8_encode (crlf_join r.headers) ++ [13, 10, 13, 10] ++ r.body

/-- The filesystem probes the server performs, abstracted. `readFile`
returns `none` when `open`/`read` raises `IOError`. -/
structure FS where
  pathExists : PyStr → Bool
  isDir : PyStr → Bool
  listdir : PyStr → List PyStr
  readFile : PyStr → Option (List Nat)

/-- Lexicographic (code-point) comparison, Python `<=` on strings. -/
def pystr_le : PyStr → PyStr → Bool
  | [], _ => true
  | _ :: _, [] => false
  | a :: as', b :: bs' => if a = b then pystr_le as' bs' else decide (a < b)

/-- Insert into a sorted list, before the first element not below `x`. -/
def py_sorted_insert (x : PyStr) : List PyStr → List PyStr
  | [] => [x]
  | y :: ys => if pystr_le x y then x :: y :: ys else y :: py_sorted_insert x ys

/-- Python `sorted` on strings.  `sorted` is a stable sort, and string
comparison is a total order under which duplicates are identical, so any
correct sort produces the same list; insertion sort is used so the
definition reduces in the kernel. -/
def py_sorted : List PyStr → List PyStr
  | [] => []
  | x :: xs => py_sorted_insert x (py_sorted xs)

/-- Replace backslashes by slashes (`link.replace('\\', '/')`,
server.py line 42). -/
def backslash_to_slash (s : PyStr) : PyStr :=
  s.map (fun c => if c = '\\' then '/' else c)

/-- One `<a href="...">...</a>` element, without the trailing newline. -/
def anchor_core (link label : PyStr) : PyStr :=
  str "<a href=\"" ++ link ++ str "\">" ++ label ++ str "</a>"

/-- One rendered anchor line of the listing (server.py lines 37 and 46). -/
def anchor_line (link label : PyStr) : PyStr := anchor_core link label ++ ['\n']

/-- One directory entry of the listing (server.py lines 39-46): note the
href uses the percent-encoded name computed before the trailing slash is
appended. -/
def entry_core (fs : FS) (path requested_path item : PyStr) : PyStr :=
  let encoded_item := urllib_quote item
  let full_path := os_path_join path item
  let link := backslash_to_slash (os_path_join requested_path encoded_item)
  if fs.isDir full_path then anchor_core (link ++ str "/") (item ++ str "/")
  else anchor_core link item

/-- The fixed HTML before the anchors (server.py lines 19-34), with the
requested path interpolated. -/
def listing_preamble (requested_path : PyStr) : PyStr :=
  str "\n<!DOCTYPE html>\n<html>\n<head>\n    <title>Directory Listing for "
  ++ requested_path
  ++ str "</title>\n    <style>\n        body \x7b font-family: monospace; \x7d\n        a \x7b text-decoration: none; \x7d\n        pre \x7b margin: 0; \x7d\n    </style>\n</head>\n<body>\n    <h1>Directory listing for "
  ++ requested_path
  ++ str "</h1>\n    <hr>\n    <pre>\n"

/-- The fixed HTML after the anchors (server.py lines 48-53). -/
def listing_postamble : PyStr :=
  str "\n    </pre>\n    <hr>\n</body>\n</html>\n"

/-- The parent-directory link block (server.py lines 35-37): present
exactly when the requested path is not the root. -/
def parent_link_html (requested_path : PyStr) : PyStr :=
  if requested_path ≠ str "/" then
    anchor_line (os_path_normpath (os_path_join requested_path (str ".."))) (str "../")
  else []

/-- `generate_dir_listing` before the final UTF-8 encode
(server.py lines 16-53). -/
def dir_listing_html (fs : FS) (path requested_path : PyStr) : PyStr :=
  let items := py_sorted (fs.listdir path)
  listing_preamble requested_path
  ++ parent_link_html requested_path
  ++ (items.map (fun item => entry_core fs path requested_path item ++ ['\n'])).flatten
  ++ listing_postamble

/-- `generate_dir_listing` (server.py line 54 encodes the HTML as UTF-8). -/
def generate_dir_listing (fs : FS) (path requested_path : PyStr) : List Nat :=
  utf8_encode (dir_listing_html fs path requested_path)

/-- `handle_request` (server.py lines 56-120) on the already-received and
UTF-8-decoded request text; `none` means the connection is closed without
any response bytes. -/
def handle_request (fs : FS) (doc_root now : PyStr) (request : PyStr) :
    Option HttpResponse :=
  if request = [] then none else
  match py_split_ws (py_strip (up_to_nl request)) with
  | [method, raw_path, _version] =>
    let url_path := urllib_unquote raw_path
    if method ≠ str "GET" then
      some (send_response now 501 (str "Not Implemented") (str "text/plain")
        (utf8_encode (str "501 Not Implemented")))
    else if seq_in (str "..") url_path then
      some (send_response now 403 (str "Forbidden") (str "text/plain")
        (utf8_encode (str "403 Forbidden: Directory traversal attempt.")))
    else
      let stripped := url_path.dropWhile (· = '/')
      let dir_path := os_path_join doc_root stripped
      let pair :=
        if ends_with url_path (str "/") then
          (os_path_join dir_path (str "index.html"), true)
        else (dir_path, false)
      let located : Option PyStr :=
        if fs.pathExists pair.1 then some pair.1
        else if pair.2 && fs.isDir dir_path then some dir_path
        else none
      match located with
      | none => some (send_404 now default_404_msg)
      | some local_path =>
        if fs.isDir local_path then
          if !ends_with url_path (str "/") then
            some (redirect_response now (url_path ++ str "/"))
          else
            some (send_response now 200 (str "OK") (str "text/html; charset=utf-8")
              (generate_dir_listing fs local_path url_path))
        else
          match classify local_path with
          | none => some (send_404 now (str "Unsupported file type or extension."))
          | some mime_type =>
            match fs.readFile local_path with
            | some body => some (send_response now 200 (str "OK") mime_type body)
            | none => some (send_404 now (str "File could not be opened/read."))
  | _ => none

/-- Decoding applied by the server to the raw request bytes
(server.py line 58): UTF-8 with `errors='ignore'`. -/
def server_decode_request (raw : List Nat) : PyStr := utf8_decode_ignore raw

/-- Index of the first occurrence of `b'\r\n\r\n'` (client.py line 35). -/
def find_delim : List Nat → Option Nat
  | [] => none
  | l@(_ :: rest) =>
    if seq_starts [13, 10, 13, 10] l then some 0 else (find_delim rest).map (· + 1)

/-- Python `s.split('\r\n\r\n')[0]`: the text before the first double
CRLF, or the whole string. -/
def take_until_crlf2 : PyStr → PyStr
  | [] => []
  | c :: rest =>
    if seq_starts (str "\r\n\r\n") (c :: rest) then [] else c :: take_until_crlf2 rest

/-- Python `s.split('\r\n')`. -/
def split_crlf : PyStr → List PyStr
  | [] => [[]]
  | '\r' :: '\n' :: rest => [] :: split_crlf rest
  | c :: rest =>
    match split_crlf rest with
    | h :: t => (c :: h) :: t
    | [] => [[c]]

/-- Response parsing of the client's `http_get` (client.py lines 34-44):
split the raw bytes at the first double CRLF; with no delimiter the whole
buffer is the Latin-1-decoded header section and the body is empty.  The
`try`/`except` wrapper is modelled by the `Option`; Latin-1 decoding and
the string operations used here are total, so the result is always
`some`. -/
def parse_response (response_data : List Nat) : Option (List PyStr × List Nat) :=
  let pr :=
    match find_delim response_data with
    | none => (take_until_crlf2 (latin1_decode response_data), ([] : List Nat))
    | some i => (latin1_decode (response_data.take i), response_data.drop (i + 4))
  some (split_crlf pr.1, pr.2)

/-- Split a header line at its first colon (`header.split(':', 1)` guarded
by `':' in header`, client.py lines 66-68). -/
def split_first_colon : PyStr → Option (PyStr × PyStr)
  | [] => none
  | ':' :: rest => some ([], rest)
  | c :: rest => (split_first_colon rest).map (fun pr => (c :: pr.1, pr.2))

/-- `get_header_value` (client.py lines 63-71): case-insensitive name
lookup, first match wins, value returned stripped. -/
def get_header_value : List PyStr → PyStr → Option PyStr
  | [], _ => none
  | h :: rest, key =>
    match split_first_colon h with
    | some (name, value) =>
      if py_lower (py_strip name) = py_lower key then some (py_strip value)
      else get_header_value rest key
    | none => get_header_value rest key

/-- `int(status_line.split()[1])` of the client's `main`
(client.py line 100); `none` models the `IndexError` path. -/
def parse_status_code (status_line : PyStr) : Option Nat :=
  ((py_split_ws status_line).get? 1).map py_int_digits

/-- A `..` path segment: a `/`-delimited component of the path equal to
`..`. -/
def has_dotdot_segment (p : PyStr) : Bool :=
  (split_slash p).any (fun seg => seg = str "..")

/-- A well-formed GET request line for path `p`, followed by arbitrary
further header bytes. -/
def mk_get_request (p rest : PyStr) : PyStr :=
  str "GET " ++ p ++ str " HTTP/1.1" ++ '\r' :: '\n' :: rest

/-- Number of consecutive `/` characters at the end of a path. -/
def trailing_slash_count (s : PyStr) : Nat :=
  (s.reverse.takeWhile (· = '/')).length

/-- Python `s.split('\n')` (used to cut the listing HTML into lines for
anchor extraction). -/
def split_nl : PyStr → List PyStr
  | [] => [[]]
  | c :: rest =>
    if c = '\n' then [] :: split_nl rest
    else
      match split_nl rest with
      | h :: t => (c :: h) :: t
      | [] => [[c]]

/-- Parse one line as an anchor element `<a href="H">L</a>`, returning
`(H, L)`. -/
def anchor_of_line (l : PyStr) : Option (PyStr × PyStr) :=
  if seq_starts (str "<a href=\"") l then
    match (l.drop 9).dropWhile (fun c => c ≠ '"') with
    | '"' :: '>' :: r2 =>
      if ends_with r2 (str "</a>") then
        some ((l.drop 9).takeWhile (fun c => c ≠ '"'), r2.take (r2.length - 4))
      else none
    | _ => none
  else none

/-- All anchors of an HTML document, line by line. -/
def extract_anchors (s : PyStr) : List (PyStr × PyStr) :=
  (split_nl s).filterMap anchor_of_line

/-- Append a newline to every line and concatenate. -/
def join_nl (ls : List PyStr) : PyStr := (ls.map (· ++ ['\n'])).flatten

/-! ### Generic lemmas about the scanning primitives -/

theorem seq_starts_append {α} [DecidableEq α] (pat rest : List α) :
    seq_starts pat (pat ++ rest) = true := by
  induction pat with
  | nil => rfl
  | cons p ps ih => simpa [seq_starts] using ih

theorem seq_in_nil {α} [DecidableEq α] (b : List α) : seq_in [] b = true := by
  cases b <;> simp [seq_in, seq_starts]

theorem seq_in_parts {α} [DecidableEq α] (pat a b : List α) :
    seq_in pat (a ++ pat ++ b) = true := by
  induction a with
  | nil =>
    cases h : pat ++ b with
    | nil =>
      obtain ⟨hp, _⟩ := List.append_eq_nil.mp h
      simpa [hp] using seq_in_nil b
    | cons x xs =>
      simp only [List.nil_append, h, seq_in, Bool.or_eq_true]
      exact Or.inl (by rw [← h]; exact seq_starts_append pat b)
  | cons c cs ih =>
    simp only [List.cons_append, seq_in, Bool.or_eq_true]
    exact Or.inr (by simpa [List.append_assoc] using ih)

theorem split_slash_cons_slash (rest : PyStr) :
    split_slash ('/' :: rest) = [] :: split_slash rest := by
  rw [split_slash]
  simp

theorem split_slash_cons_ne (c : Char) (rest : PyStr) (h : c ≠ '/') :
    split_slash (c :: rest) =
      match split_slash rest with
      | hd :: t => (c :: hd) :: t
      | [] => [[c]] := by
  rw [split_slash]
  simp [h]

theorem split_slash_shape (p : PyStr) : ∃ h t, split_slash p = h :: t := by
  induction p with
  | nil => exact ⟨[], [], rfl⟩
  | cons c cs ih =>
    obtain ⟨h, t, hht⟩ := ih
    by_cases hc : c = '/'
    · exact ⟨[], split_slash cs, by rw [hc, split_slash_cons_slash]⟩
    · exact ⟨c :: h, t, by rw [split_slash_cons_ne c cs hc, hht]⟩

theorem split_slash_head_init (p : PyStr) :
    ∀ h t, split_slash p = h :: t → ∃ b, p = h ++ b := by
  induction p with
  | nil =>
    intro h t he
    simp only [split_slash] at he
    cases he
    exact ⟨[], rfl⟩
  | cons c cs ih =>
    intro h t he
    by_cases hc : c = '/'
    · rw [hc, split_slash_cons_slash] at he
      cases he
      exact ⟨'/' :: cs, by simp [hc]⟩
    · obtain ⟨h', t', hht⟩ := split_slash_shape cs
      rw [split_slash_cons_ne c cs hc, hht] at he
      cases he
      obtain ⟨b, hb⟩ := ih _ _ hht
      exact ⟨b, by simp [hb]⟩

theorem mem_split_slash (p : PyStr) :
    ∀ s, s ∈ split_slash p → ∃ a b, p = a ++ s ++ b := by
  induction p with
  | nil =>
    intro s hs
    simp only [split_slash, List.mem_singleton] at hs
    exact ⟨[], [], by simp [hs]⟩
  | cons c cs ih =>
    intro s hs
    by_cases hc : c = '/'
    · rw [hc, split_slash_cons_slash] at hs
      rcases List.mem_cons.mp hs with hs | hs
      · exact ⟨[], '/' :: cs, by simp [hs, hc]⟩
      · obtain ⟨a, b, hab⟩ := ih s hs
        exact ⟨'/' :: a, b, by simp [hab, hc]⟩
    · obtain ⟨h, t, hht⟩ := split_slash_shape cs
      rw [split_slash_cons_ne c cs hc, hht] at hs
      rcases List.mem_cons.mp hs with hs | hs
      · obtain ⟨b, hb⟩ := split_slash_head_init cs h t hht
        exact ⟨[], b, by simp [hs, hb]⟩
      · obtain ⟨a, b, hab⟩ := ih s (by rw [hht]; exact List.mem_cons_of_mem _ hs)
        exact ⟨c :: a, b, by simp [hab]⟩

theorem seq_in_of_dotdot_segment (p : PyStr) (h : has_dotdot_segment p = true) :
    seq_in (str "..") p = true := by
  obtain ⟨s, hs, hseq⟩ := List.any_eq_true.mp h
  have hs' : s = str ".." := by simpa using hseq
  obtain ⟨a, b, hab⟩ := mem_split_slash p s hs
  rw [hab, hs']
  exact seq_in_parts _ a b

/-! ### Request-line parsing -/

theorem up_to_nl_append (a b : PyStr) (h : '\n' ∉ a) :
    up_to_nl (a ++ '\n' :: b) = a := by
  induction a with
  | nil => simp [up_to_nl]
  | cons c cs ih =>
    have hc : c ≠ '\n' := fun e => h (by simp [e])
    have hcs : '\n' ∉ cs := fun m => h (List.mem_cons_of_mem _ m)
    simp [up_to_nl, hc, ih hcs]

theorem py_strip_request_line (p : PyStr) :
    py_strip (str "GET " ++ p ++ str " HTTP/1.1" ++ ['\r']) =
      str "GET " ++ p ++ str " HTTP/1.1" := by
  have h1 : str "GET " ++ p ++ str " HTTP/1.1" ++ ['\r'] =
      'G' :: (str "ET " ++ p ++ str " HTTP/1.1" ++ ['\r']) := by simp [str]
  have hG : py_is_space 'G' = false := by decide
  have h2 : (str "GET " ++ p ++ str " HTTP/1.1" ++ ['\r']).reverse =
      '\r' :: '1' :: ('.' :: '1' :: '/' :: 'P' :: 'T' :: 'T' :: 'H' :: ' ' :: []
        ++ p.reverse ++ str " TEG") := by
    simp [str, List.reverse_append]
  rw [py_strip, h1, List.dropWhile_cons_of_neg (by simp [hG]), ← h1, h2]
  have hr : py_is_space '\r' = true := by decide
  have h1' : py_is_space '1' = false := by decide
  rw [List.dropWhile_cons_of_pos (by simp [hr]), List.dropWhile_cons_of_neg (by simp [h1'])]
  simp [str, List.reverse_append]

theorem py_split_ws_aux_word (w : PyStr) (hw : ∀ c ∈ w, py_is_space c = false)
    (acc l : PyStr) : py_split_ws_aux acc (w ++ l) = py_split_ws_aux (w.reverse ++ acc) l := by
  induction w generalizing acc with
  | nil => simp
  | cons c cs ih =>
    have hc : py_is_space c = false := hw c (by simp)
    have hcs : ∀ x ∈ cs, py_is_space x = false := fun x hx => hw x (by simp [hx])
    rw [List.cons_append, py_split_ws_aux, hc]
    simp only [Bool.false_eq_true, if_false]
    rw [ih hcs (c :: acc)]
    simp

theorem py_split_ws_aux_space (acc l : PyStr) (hacc : acc ≠ []) :
    py_split_ws_aux acc (' ' :: l) = acc.reverse :: py_split_ws_aux [] l := by
  have hs : py_is_space ' ' = true := by decide
  rw [py_split_ws_aux, hs]
  simp [hacc]

theorem py_split_ws_request_line (p : PyStr) (hp : p ≠ [])
    (hw : ∀ c ∈ p, py_is_space c = false) :
    py_split_ws (str "GET " ++ p ++ str " HTTP/1.1") =
      [str "GET", p, str "HTTP/1.1"] := by
  have hshape : str "GET " ++ p ++ str " HTTP/1.1" =
      str "GET" ++ (' ' :: (p ++ (' ' :: str "HTTP/1.1"))) := by simp [str]
  have hGET : ∀ c ∈ str "GET", py_is_space c = false := by decide
  rw [py_split_ws, hshape, py_split_ws_aux_word _ hGET,
    py_split_ws_aux_space _ _ (by simp [str]),
    py_split_ws_aux_word _ hw, py_split_ws_aux_space _ _ (by simpa using hp)]
  simp [str]
  rfl

theorem request_tokens (p rest : PyStr) (hp : p ≠ [])
    (hw : ∀ c ∈ p, py_is_space c = false) :
    py_split_ws (py_strip (up_to_nl (mk_get_request p rest))) =
      [str "GET", p, str "HTTP/1.1"] := by
  have hshape : mk_get_request p rest =
      (str "GET " ++ p ++ str " HTTP/1.1" ++ ['\r']) ++ '\n' :: rest := by
    simp [mk_get_request]
  have hnl : '\n' ∉ str "GET " ++ p ++ str " HTTP/1.1" ++ ['\r'] := by
    intro hm
    simp only [List.mem_append] at hm
    rcases hm with ((hm | hm) | hm) | hm
    · revert hm; decide
    · have := hw _ hm; simp [py_is_space] at this
    · revert hm; decide
    · revert hm; decide
  rw [hshape, up_to_nl_append _ _ hnl, py_strip_request_line p,
    py_split_ws_request_line p hp hw]

theorem mk_get_request_ne_nil (p rest : PyStr) : mk_get_request p rest ≠ [] := by
  simp [mk_get_request, str]

/-! ### Traversal rejection (server.py lines 73-75) -/

theorem handle_403_of_seq_in (fs : FS) (doc_root now p rest : PyStr) (hp : p ≠ [])
    (hw : ∀ c ∈ p, py_is_space c = false)
    (hin : seq_in (str "..") (urllib_unquote p) = true) :
    handle_request fs doc_root now (mk_get_request p rest) =
      some (send_response now 403 (str "Forbidden") (str "text/plain")
        (utf8_encode (str "403 Forbidden: Directory traversal attempt."))) := by
  rw [handle_request, if_neg (by simpa using mk_get_request_ne_nil p rest),
    request_tokens p rest hp hw]
  simp [hin]

/-- A tiny concrete filesystem with nothing in it, for witnesses. -/
def fs_empty : FS := ⟨fun _ => false, fun _ => false, fun _ => [], fun _ => none⟩

/-- A concrete filesystem containing only the directory `root/sub`. -/
def fs_one_dir : FS :=
  ⟨fun s => decide (s = str "root/sub"), fun s => decide (s = str "root/sub"),
   fun _ => [], fun _ => none⟩

/-- C1: a GET request whose percent-decoded path contains a `..` path
segment is answered with the 403 traversal response, whatever
percent-encoding the wire path used (the check runs on the decoded
path). -/
theorem dotdot_segment_forbidden (fs : FS) (doc_root now p rest : PyStr) (hp : p ≠ [])
    (hw : ∀ c ∈ p, py_is_space c = false)
    (hseg : has_dotdot_segment (urllib_unquote p) = true) :
    handle_request fs doc_root now (mk_get_request p rest) =
      some (send_response now 403 (str "Forbidden") (str "text/plain")
        (utf8_encode (str "403 Forbidden: Directory traversal attempt."))) :=
  handle_403_of_seq_in fs doc_root now p rest hp hw
    (seq_in_of_dotdot_segment _ hseg)

/-- Witness for C1: the fully percent-encoded traversal path `/%2e%2e/x`
decodes to `/../x`, whose middle segment is `..`, and draws the 403. -/
theorem dotdot_segment_forbidden_witness :
    has_dotdot_segment (urllib_unquote (str "/%2e%2e/x")) = true ∧
    handle_request fs_empty (str "root") (str "now")
        (mk_get_request (str "/%2e%2e/x") (str "Host: h")) =
      some (send_response (str "now") 403 (str "Forbidden") (str "text/plain")
        (utf8_encode (str "403 Forbidden: Directory traversal attempt."))) :=
  ⟨by decide,
   dotdot_segment_forbidden fs_empty (str "root") (str "now") (str "/%2e%2e/x")
     (str "Host: h") (by decide) (by decide) (by decide)⟩

/-- C10: the server's check is a plain substring test — any decoded path
containing `..` anywhere, segment or not, draws the 403 traversal
response. -/
theorem substring_dotdot_forbidden (fs : FS) (doc_root now p rest : PyStr) (hp : p ≠ [])
    (hw : ∀ c ∈ p, py_is_space c = false)
    (hin : seq_in (str "..") (urllib_unquote p) = true) :
    handle_request fs doc_root now (mk_get_request p rest) =
      some (send_response now 403 (str "Forbidden") (str "text/plain")
        (utf8_encode (str "403 Forbidden: Directory traversal attempt."))) :=
  handle_403_of_seq_in fs doc_root now p rest hp hw hin

/-- Witness for C10 at `/notes..txt`: the path contains `..` only inside a
file name — it has no `..` segment — yet the server still answers 403,
showing the substring test is strictly stricter than segment-based
rejection. -/
theorem substring_dotdot_forbidden_witness :
    has_dotdot_segment (urllib_unquote (str "/notes..txt")) = false ∧
    seq_in (str "..") (urllib_unquote (str "/notes..txt")) = true ∧
    handle_request fs_empty (str "root") (str "now")
        (mk_get_request (str "/notes..txt") (str "Host: h")) =
      some (send_response (str "now") 403 (str "Forbidden") (str "text/plain")
        (utf8_encode (str "403 Forbidden: Directory traversal attempt."))) :=
  ⟨by decide, by decide,
   substring_dotdot_forbidden fs_empty (str "root") (str "now") (str "/notes..txt")
     (str "Host: h") (by decide) (by decide) (by decide)⟩

/-- C9: a received request whose first line does not split into exactly
three whitespace-separated tokens is dropped silently: the handler sends
nothing (`none`) and simply returns. -/
theorem unparseable_request_silent_drop (fs : FS) (doc_root now request : PyStr)
    (hne : request ≠ [])
    (hlen : (py_split_ws (py_strip (up_to_nl request))).length ≠ 3) :
    handle_request fs doc_root now request = none := by
  rw [handle_request, if_neg hne]
  rcases h : py_split_ws (py_strip (up_to_nl request)) with _ | ⟨a, _ | ⟨b, _ | ⟨c, _ | l⟩⟩⟩
  · rfl
  · rfl
  · rfl
  · exact absurd (by rw [h]; rfl) hlen
  · rfl

/-- Witness for C9: a one-token request line is dropped without any
response. -/
theorem unparseable_request_silent_drop_witness :
    (str "BADREQUEST" ≠ ([] : PyStr)) ∧
    (py_split_ws (py_strip (up_to_nl (str "BADREQUEST")))).length ≠ 3 ∧
    handle_request fs_empty (str "root") (str "now") (str "BADREQUEST") = none :=
  ⟨by decide, by decide,
   unparseable_request_silent_drop fs_empty (str "root") (str "now")
     (str "BADREQUEST") (by decide) (by decide)⟩

/-- C5: a GET for a path without trailing slash that is an existing
directory under the document root is answered with the 301 redirect whose
Location is the path plus exactly one slash, never a 200. -/
theorem dir_without_slash_redirects (fs : FS) (doc_root now p rest : PyStr)
    (hp : p ≠ []) (hw : ∀ c ∈ p, py_is_space c = false)
    (hno : seq_in (str "..") (urllib_unquote p) = false)
    (hslash : ends_with (urllib_unquote p) (str "/") = false)
    (hex : fs.pathExists
      (os_path_join doc_root ((urllib_unquote p).dropWhile (· = '/'))) = true)
    (hdir : fs.isDir
      (os_path_join doc_root ((urllib_unquote p).dropWhile (· = '/'))) = true) :
    handle_request fs doc_root now (mk_get_request p rest) =
      some (redirect_response now (urllib_unquote p ++ str "/")) ∧
    str "Location: " ++ (urllib_unquote p ++ str "/") ∈
      (redirect_response now (urllib_unquote p ++ str "/")).headers ∧
    trailing_slash_count (urllib_unquote p ++ str "/") = 1 ∧
    (redirect_response now (urllib_unquote p ++ str "/")).headers.head? ≠
      some (str "HTTP/1.1 200 OK") := by
  refine ⟨?_, by simp [redirect_response], ?_, by simp [redirect_response]; decide⟩
  · rw [handle_request, if_neg (by simpa using mk_get_request_ne_nil p rest),
      request_tokens p rest hp hw]
    simp [hno, hslash, hex, hdir]
  · rw [trailing_slash_count]
    have h1 : (urllib_unquote p ++ str "/").reverse = '/' :: (urllib_unquote p).reverse := by
      simp [str]
    rw [h1, List.takeWhile_cons_of_pos (by simp)]
    cases hrev : (urllib_unquote p).reverse with
    | nil => simp
    | cons c cr =>
      have hc : c ≠ '/' := by
        intro e
        rw [ends_with, hrev, e] at hslash
        simp [str, seq_starts] at hslash
      rw [List.takeWhile_cons_of_neg (by simpa using hc)]
      simp

/-- Witness for C5 at path `/sub` over a filesystem where `root/sub` is a
directory. -/
theorem dir_without_slash_redirects_witness :
    ends_with (urllib_unquote (str "/sub")) (str "/") = false ∧
    fs_one_dir.isDir
      (os_path_join (str "root") ((urllib_unquote (str "/sub")).dropWhile (· = '/'))) = true ∧
    (handle_request fs_one_dir (str "root") (str "now")
        (mk_get_request (str "/sub") (str "Host: h")) =
      some (redirect_response (str "now") (urllib_unquote (str "/sub") ++ str "/")) ∧
    str "Location: " ++ (urllib_unquote (str "/sub") ++ str "/") ∈
      (redirect_response (str "now") (urllib_unquote (str "/sub") ++ str "/")).headers ∧
    trailing_slash_count (urllib_unquote (str "/sub") ++ str "/") = 1 ∧
    (redirect_response (str "now") (urllib_unquote (str "/sub") ++ str "/")).headers.head? ≠
      some (str "HTTP/1.1 200 OK")) :=
  ⟨by decide, by decide,
   dir_without_slash_redirects fs_one_dir (str "root") (str "now") (str "/sub")
     (str "Host: h") (by decide) (by decide) (by decide) (by decide) (by decide)
     (by decide)⟩

/-! ### Content classification (C2) -/

/-- A concrete filesystem containing only the regular file `root/doc.htm`
with two bytes of content. -/
def fs_htm : FS :=
  ⟨fun s => decide (s = str "root/doc.htm"), fun _ => false, fun _ => [],
   fun s => if s = str "root/doc.htm" then some [7, 8] else none⟩

/-- A concrete filesystem containing only the regular file
`root/notes.txt`. -/
def fs_txt : FS :=
  ⟨fun s => decide (s = str "root/notes.txt"), fun _ => false, fun _ => [],
   fun s => if s = str "root/notes.txt" then some [9] else none⟩

/-- The allow-list filter applied on server.py line 111 keeps only the
three supported content types. -/
theorem classify_filter_mem (x m : PyStr)
    (h : (if (SUPPORTED_MIMES.map Prod.snd).contains x then some x else none) = some m) :
    m = str "text/html" ∨ m = str "image/png" ∨ m = str "application/pdf" := by
  by_cases hc : (SUPPORTED_MIMES.map Prod.snd).contains x
  · rw [if_pos hc] at h
    cases h
    simp only [SUPPORTED_MIMES, List.map_cons, List.map_nil] at hc
    simpa using hc
  · rw [if_neg hc] at h
    exact absurd h (by simp)

/-- Counterexample to C2: `.htm` is outside the fixed table, yet the
handler serves it — the library MIME guess returns `text/html`, which
passes the allow-list value filter, so an existing `.htm` file gets a 200
with `text/html`, not a 404. -/
theorem classify_htm_counterexample :
    mimes_get (str ".htm") = none ∧
    classify (str "root/doc.htm") = some (str "text/html") ∧
    handle_request fs_htm (str "root") (str "now")
        (mk_get_request (str "/doc.htm") (str "Host: h")) =
      some (send_response (str "now") 200 (str "OK") (str "text/html") [7, 8]) := by
  decide

/-- C2 as amended: the three fixed extensions map to their fixed types;
every type the classifier lets through is one of the three allowed
values; an extension outside the table is classified by the library guess
filtered to those values (so `.htm` yields `text/html`); and a path whose
classification is `none` is answered with the unsupported-type 404. -/
theorem classify_allowlist (p : PyStr) :
    (py_lower (os_path_splitext_ext p) = str ".html" →
      classify p = some (str "text/html")) ∧
    (py_lower (os_path_splitext_ext p) = str ".png" →
      classify p = some (str "image/png")) ∧
    (py_lower (os_path_splitext_ext p) = str ".pdf" →
      classify p = some (str "application/pdf")) ∧
    (∀ m, classify p = some m →
      m = str "text/html" ∨ m = str "image/png" ∨ m = str "application/pdf") ∧
    classify (str "root/doc.htm") = some (str "text/html") ∧
    (∀ (fs : FS) (doc_root now rest : PyStr), p ≠ [] →
      (∀ c ∈ p, py_is_space c = false) →
      seq_in (str "..") (urllib_unquote p) = false →
      ends_with (urllib_unquote p) (str "/") = false →
      fs.pathExists
        (os_path_join doc_root ((urllib_unquote p).dropWhile (· = '/'))) = true →
      fs.isDir
        (os_path_join doc_root ((urllib_unquote p).dropWhile (· = '/'))) = false →
      classify (os_path_join doc_root ((urllib_unquote p).dropWhile (· = '/'))) = none →
      handle_request fs doc_root now (mk_get_request p rest) =
        some (send_404 now (str "Unsupported file type or extension."))) := by
  refine ⟨?_, ?_, ?_, ?_, by decide, ?_⟩
  · intro h
    simp only [classify, h]
    rfl
  · intro h
    simp only [classify, h]
    rfl
  · intro h
    simp only [classify, h]
    rfl
  · intro m hm
    simp only [classify] at hm
    cases h1 : mimes_get (py_lower (os_path_splitext_ext p)) with
    | some m1 =>
      rw [h1] at hm
      exact classify_filter_mem m1 m hm
    | none =>
      rw [h1] at hm
      cases h2 : mimetypes_guess_type p with
      | some m2 =>
        rw [h2] at hm
        exact classify_filter_mem m2 m hm
      | none => rw [h2] at hm; cases hm
  · intro fs doc_root now rest hp hw hno hslash hex hdir hcl
    rw [handle_request, if_neg (by simpa using mk_get_request_ne_nil p rest),
      request_tokens p rest hp hw]
    simp [hno, hslash, hex, hdir, hcl]

/-- Witness for the amended C2: `.html` classifies to `text/html`, and a
request for an existing `.txt` file (whose guessed type `text/plain` is
filtered out) is answered with the unsupported-type 404. -/
theorem classify_allowlist_witness :
    classify (str "a.html") = some (str "text/html") ∧
    handle_request fs_txt (str "root") (str "now")
        (mk_get_request (str "/notes.txt") (str "Host: h")) =
      some (send_404 (str "now") (str "Unsupported file type or extension.")) :=
  ⟨(classify_allowlist (str "a.html")).1 (by decide),
   (classify_allowlist (str "/notes.txt")).2.2.2.2.2 fs_txt (str "root") (str "now")
     (str "Host: h") (by decide) (by decide) (by decide) (by decide) (by decide)
     (by decide) (by decide)⟩

/-! ### Header lookup computations (C3, C6) -/

theorem split_first_colon_append (a b : PyStr) (h : ':' ∉ a) :
    split_first_colon (a ++ ':' :: b) = some (a, b) := by
  induction a with
  | nil => rfl
  | cons c cs ih =>
    have hc : c ≠ ':' := fun e => h (by simp [e])
    have hcs : ':' ∉ cs := fun m => h (List.mem_cons_of_mem _ m)
    rw [List.cons_append, split_first_colon.eq_def]
    split
    · simp_all
    · next heq => injection heq with h1 _; exact absurd h1 hc
    · next c' rest' x heq =>
      injection heq with h1 h2
      subst h1; subst h2
      rw [ih hcs]
      rfl

theorem gh_cons_skip (h : PyStr) (rest : List PyStr) (key : PyStr)
    (hname : ∀ name value, split_first_colon h = some (name, value) →
      py_lower (py_strip name) ≠ py_lower key) :
    get_header_value (h :: rest) key = get_header_value rest key := by
  cases hs : split_first_colon h with
  | none => rw [get_header_value, hs]
  | some pr =>
    rw [get_header_value, hs]
    simp [hname pr.1 pr.2 (by rw [hs])]

theorem gh_cons_hit (h : PyStr) (rest : List PyStr) (key name value : PyStr)
    (hs : split_first_colon h = some (name, value))
    (heq : py_lower (py_strip name) = py_lower key) :
    get_header_value (h :: rest) key = some (py_strip value) := by
  rw [get_header_value, hs]
  simp [heq]

theorem gh_line_hit (nm v : PyStr) (rest : List PyStr) (key : PyStr) (hnm : ':' ∉ nm)
    (he : py_lower (py_strip nm) = py_lower key) :
    get_header_value ((nm ++ ':' :: v) :: rest) key = some (py_strip v) :=
  gh_cons_hit _ rest key nm v (split_first_colon_append nm v hnm) he

theorem gh_line_skip (nm v : PyStr) (rest : List PyStr) (key : PyStr) (hnm : ':' ∉ nm)
    (he : py_lower (py_strip nm) ≠ py_lower key) :
    get_header_value ((nm ++ ':' :: v) :: rest) key = get_header_value rest key := by
  apply gh_cons_skip
  intro name value hs
  rw [split_first_colon_append nm v hnm] at hs
  injection hs with h1
  injection h1 with h1 h2
  rw [← h1]
  exact he

theorem py_strip_cons_space (l : PyStr) : py_strip (' ' :: l) = py_strip l := by
  rw [py_strip, py_strip, List.dropWhile_cons_of_pos (by decide)]

theorem py_strip_head (c : Char) (l : PyStr) (hc : py_is_space c = false) :
    ∃ t, py_strip (c :: l) = c :: t := by
  have hc' : ¬ py_is_space c = true := by simp [hc]
  rw [py_strip, List.dropWhile_cons_of_neg hc', List.reverse_cons, List.dropWhile_append]
  by_cases he : (List.dropWhile py_is_space l.reverse).isEmpty
  · rw [if_pos he]
    refine ⟨[], ?_⟩
    rw [List.dropWhile_cons_of_neg hc']
    rfl
  · rw [if_neg he]
    exact ⟨(List.dropWhile py_is_space l.reverse).reverse, by simp⟩

theorem lower_strip_head (c : Char) (l : PyStr) (hc : py_is_space c = false) :
    ∃ t, py_lower (py_strip (c :: l)) = c.toLower :: t := by
  obtain ⟨t, ht⟩ := py_strip_head c l hc
  exact ⟨py_lower t, by rw [ht]; rfl⟩

theorem gh_statusline_skip (code : Nat) (text : PyStr) (rest : List PyStr) (key : PyStr)
    (hkey : ∀ t, py_lower key ≠ 'h' :: t) :
    get_header_value ((str "HTTP/1.1 " ++ nat_digits code ++ ' ' :: text) :: rest) key =
      get_header_value rest key := by
  apply gh_cons_skip
  intro name value hs
  have hshape : str "HTTP/1.1 " ++ nat_digits code ++ ' ' :: text =
      'H' :: (str "TTP/1.1 " ++ nat_digits code ++ ' ' :: text) := by simp [str]
  rw [hshape] at hs
  have hsp : split_first_colon ('H' :: (str "TTP/1.1 " ++ nat_digits code ++ ' ' :: text)) =
      (split_first_colon (str "TTP/1.1 " ++ nat_digits code ++ ' ' :: text)).map
        (fun pr => ('H' :: pr.1, pr.2)) := rfl
  rw [hsp] at hs
  rcases Option.map_eq_some'.mp hs with ⟨pr, _, hpr⟩
  have hn : name = 'H' :: pr.1 := by
    have := congrArg Prod.fst hpr
    simpa using this.symm
  rw [hn]
  obtain ⟨t, ht⟩ := lower_strip_head 'H' pr.1 (by decide)
  rw [ht]
  intro he
  exact hkey (py_lower key).tail (by rw [← he]; rfl)

theorem ne_cons_head (a : Char) (x : PyStr) (b : Char) (y : PyStr) (hab : a ≠ b) :
    a :: x ≠ b :: y := by
  intro h
  injection h with h1 _
  exact hab h1

theorem hkey_date : ∀ t, py_lower (str "Date") ≠ 'h' :: t :=
  fun t => ne_cons_head 'd' (str "ate") 'h' t (by decide)

theorem hkey_ct : ∀ t, py_lower (str "Content-Type") ≠ 'h' :: t :=
  fun t => ne_cons_head 'c' (str "ontent-type") 'h' t (by decide)

theorem hkey_cl : ∀ t, py_lower (str "Content-Length") ≠ 'h' :: t :=
  fun t => ne_cons_head 'c' (str "ontent-length") 'h' t (by decide)

theorem hkey_conn : ∀ t, py_lower (str "Connection") ≠ 'h' :: t :=
  fun t => ne_cons_head 'c' (str "onnection") 'h' t (by decide)

theorem gh_send_date (now : PyStr) (code : Nat) (text ctype : PyStr) (body : List Nat) :
    get_header_value (send_response now code text ctype body).headers (str "Date") =
      some (py_strip now) := by
  simp only [send_response]
  rw [gh_statusline_skip code text _ _ hkey_date,
    show str "Date: " ++ now = str "Date" ++ ':' :: (' ' :: now) from rfl,
    gh_line_hit (str "Date") (' ' :: now) _ _ (by decide) (by decide)]
  exact congrArg some (py_strip_cons_space now)

theorem gh_send_ct (now : PyStr) (code : Nat) (text ctype : PyStr) (body : List Nat) :
    get_header_value (send_response now code text ctype body).headers (str "Content-Type") =
      some (py_strip ctype) := by
  simp only [send_response]
  rw [gh_statusline_skip code text _ _ hkey_ct,
    show str "Date: " ++ now = str "Date" ++ ':' :: (' ' :: now) from rfl,
    gh_line_skip (str "Date") (' ' :: now) _ _ (by decide) (by decide),
    show str "Content-Type: " ++ ctype = str "Content-Type" ++ ':' :: (' ' :: ctype) from rfl,
    gh_line_hit (str "Content-Type") (' ' :: ctype) _ _ (by decide) (by decide)]
  exact congrArg some (py_strip_cons_space ctype)

theorem gh_send_cl (now : PyStr) (code : Nat) (text ctype : PyStr) (body : List Nat) :
    get_header_value (send_response now code text ctype body).headers (str "Content-Length") =
      some (py_strip (nat_digits body.length)) := by
  simp only [send_response]
  rw [gh_statusline_skip code text _ _ hkey_cl,
    show str "Date: " ++ now = str "Date" ++ ':' :: (' ' :: now) from rfl,
    gh_line_skip (str "Date") (' ' :: now) _ _ (by decide) (by decide),
    show str "Content-Type: " ++ ctype = str "Content-Type" ++ ':' :: (' ' :: ctype) from rfl,
    gh_line_skip (str "Content-Type") (' ' :: ctype) _ _ (by decide) (by decide),
    show str "Content-Length: " ++ nat_digits body.length =
      str "Content-Length" ++ ':' :: (' ' :: nat_digits body.length) from rfl,
    gh_line_hit (str "Content-Length") (' ' :: nat_digits body.length) _ _
      (by decide) (by decide)]
  exact congrArg some (py_strip_cons_space _)

theorem gh_send_conn (now : PyStr) (code : Nat) (text ctype : PyStr) (body : List Nat) :
    get_header_value (send_response now code text ctype body).headers (str "Connection") =
      some (str "close") := by
  simp only [send_response]
  rw [gh_statusline_skip code text _ _ hkey_conn,
    show str "Date: " ++ now = str "Date" ++ ':' :: (' ' :: now) from rfl,
    gh_line_skip (str "Date") (' ' :: now) _ _ (by decide) (by decide),
    show str "Content-Type: " ++ ctype = str "Content-Type" ++ ':' :: (' ' :: ctype) from rfl,
    gh_line_skip (str "Content-Type") (' ' :: ctype) _ _ (by decide) (by decide),
    show str "Content-Length: " ++ nat_digits body.length =
      str "Content-Length" ++ ':' :: (' ' :: nat_digits body.length) from rfl,
    gh_line_skip (str "Content-Length") (' ' :: nat_digits body.length) _ _
      (by decide) (by decide),
    show str "Connection: close" = str "Connection" ++ ':' :: (' ' :: str "close") from rfl,
    gh_line_hit (str "Connection") (' ' :: str "close") _ _ (by decide) (by decide)]
  decide

theorem gh_redirect_status_skip (rest : List PyStr) (key : PyStr) :
    get_header_value ((str "HTTP/1.1 301 Moved Permanently") :: rest) key =
      get_header_value rest key := by
  apply gh_cons_skip
  intro name value hs
  rw [show split_first_colon (str "HTTP/1.1 301 Moved Permanently") = none from by decide]
    at hs
  cases hs

theorem gh_redirect_location (now u : PyStr) :
    get_header_value (redirect_response now u).headers (str "Location") =
      some (py_strip u) := by
  simp only [redirect_response]
  rw [gh_redirect_status_skip _ _,
    show str "Location: " ++ u = str "Location" ++ ':' :: (' ' :: u) from rfl,
    gh_line_hit (str "Location") (' ' :: u) _ _ (by decide) (by decide)]
  exact congrArg some (py_strip_cons_space u)

theorem gh_redirect_date (now u : PyStr) :
    get_header_value (redirect_response now u).headers (str "Date") =
      some (py_strip now) := by
  simp only [redirect_response]
  rw [gh_redirect_status_skip _ _,
    show str "Location: " ++ u = str "Location" ++ ':' :: (' ' :: u) from rfl,
    gh_line_skip (str "Location") (' ' :: u) _ _ (by decide) (by decide),
    show str "Date: " ++ now = str "Date" ++ ':' :: (' ' :: now) from rfl,
    gh_line_hit (str "Date") (' ' :: now) _ _ (by decide) (by decide)]
  exact congrArg some (py_strip_cons_space now)

theorem gh_redirect_cl (now u : PyStr) :
    get_header_value (redirect_response now u).headers (str "Content-Length") =
      some (str "0") := by
  simp only [redirect_response]
  rw [gh_redirect_status_skip _ _,
    show str "Location: " ++ u = str "Location" ++ ':' :: (' ' :: u) from rfl,
    gh_line_skip (str "Location") (' ' :: u) _ _ (by decide) (by decide),
    show str "Date: " ++ now = str "Date" ++ ':' :: (' ' :: now) from rfl,
    gh_line_skip (str "Date") (' ' :: now) _ _ (by decide) (by decide)]
  decide

theorem gh_redirect_conn (now u : PyStr) :
    get_header_value (redirect_response now u).headers (str "Connection") =
      some (str "close") := by
  simp only [redirect_response]
  rw [gh_redirect_status_skip _ _,
    show str "Location: " ++ u = str "Location" ++ ':' :: (' ' :: u) from rfl,
    gh_line_skip (str "Location") (' ' :: u) _ _ (by decide) (by decide),
    show str "Date: " ++ now = str "Date" ++ ':' :: (' ' :: now) from rfl,
    gh_line_skip (str "Date") (' ' :: now) _ _ (by decide) (by decide)]
  decide

theorem gh_redirect_ct_none (now u : PyStr) :
    get_header_value (redirect_response now u).headers (str "Content-Type") = none := by
  simp only [redirect_response]
  rw [gh_redirect_status_skip _ _,
    show str "Location: " ++ u = str "Location" ++ ':' :: (' ' :: u) from rfl,
    gh_line_skip (str "Location") (' ' :: u) _ _ (by decide) (by decide),
    show str "Date: " ++ now = str "Date" ++ ':' :: (' ' :: now) from rfl,
    gh_line_skip (str "Date") (' ' :: now) _ _ (by decide) (by decide)]
  decide

/-- Every response the handler can emit is either a `send_response` with
one of the four status/reason pairs of the source, or the inline 301
redirect. -/
theorem handle_request_shape (fs : FS) (doc_root now request : PyStr) (r : HttpResponse)
    (h : handle_request fs doc_root now request = some r) :
    (∃ code text ctype body, r = send_response now code text ctype body ∧
      (code, text) ∈ [(501, str "Not Implemented"), (403, str "Forbidden"),
        (200, str "OK"), (404, str "Not Found")]) ∨
    (∃ u, r = redirect_response now u) := by
  simp only [handle_request] at h
  repeat' split at h
  all_goals try cases h
  all_goals
    first
      | exact Or.inr ⟨_, rfl⟩
      | refine Or.inl ⟨_, _, _, _, rfl, by decide⟩

/-- C3 as amended: every response carries Date, Content-Length and
`Connection: close`; every response except the inline 301 redirect also
carries Content-Type; the 301 redirect carries Location but no
Content-Type header. -/
theorem response_headers_amended (fs : FS) (doc_root now request : PyStr)
    (r : HttpResponse) (h : handle_request fs doc_root now request = some r) :
    (get_header_value r.headers (str "Date")).isSome = true ∧
    (get_header_value r.headers (str "Content-Length")).isSome = true ∧
    get_header_value r.headers (str "Connection") = some (str "close") ∧
    (r.headers.head? ≠ some (str "HTTP/1.1 301 Moved Permanently") →
      (get_header_value r.headers (str "Content-Type")).isSome = true) ∧
    (r.headers.head? = some (str "HTTP/1.1 301 Moved Permanently") →
      (get_header_value r.headers (str "Location")).isSome = true ∧
      get_header_value r.headers (str "Content-Type") = none) := by
  rcases handle_request_shape fs doc_root now request r h with
    ⟨code, text, ctype, body, rfl, hmem⟩ | ⟨u, rfl⟩
  · refine ⟨by rw [gh_send_date]; rfl, by rw [gh_send_cl]; rfl,
      gh_send_conn now code text ctype body, fun _ => by rw [gh_send_ct]; rfl, ?_⟩
    intro habs
    exfalso
    have hhead : ∀ (n : PyStr) (c : Nat) (t ct : PyStr) (b : List Nat),
        (send_response n c t ct b).headers.head? =
          some (str "HTTP/1.1 " ++ nat_digits c ++ ' ' :: t) := fun _ _ _ _ _ => rfl
    rw [hhead] at habs
    simp only [List.mem_cons, List.not_mem_nil, or_false, Prod.mk.injEq] at hmem
    rcases hmem with ⟨hc, ht⟩ | ⟨hc, ht⟩ | ⟨hc, ht⟩ | ⟨hc, ht⟩ <;>
      (subst hc; subst ht; exact absurd habs (by decide))
  · refine ⟨by rw [gh_redirect_date]; rfl, by rw [gh_redirect_cl]; rfl,
      gh_redirect_conn now u, ?_, ?_⟩
    · intro hne
      exact absurd rfl hne
    · intro _
      exact ⟨by rw [gh_redirect_location]; rfl, gh_redirect_ct_none now u⟩

/-- Counterexample to C3: the 301 redirect that the server sends for a
directory path without trailing slash has no Content-Type header. -/
theorem redirect_missing_content_type_cx :
    handle_request fs_one_dir (str "root") (str "now")
        (mk_get_request (str "/sub") (str "Host: h")) =
      some (redirect_response (str "now") (str "/sub/")) ∧
    get_header_value (redirect_response (str "now") (str "/sub/")).headers
        (str "Content-Type") = none := by
  decide

/-- Witness for the amended C3 at the concrete 301 redirect response. -/
theorem response_headers_amended_witness :
    handle_request fs_one_dir (str "root") (str "now")
        (mk_get_request (str "/sub") (str "Host: h")) =
      some (redirect_response (str "now") (str "/sub/")) ∧
    ((get_header_value (redirect_response (str "now") (str "/sub/")).headers
        (str "Date")).isSome = true ∧
     (get_header_value (redirect_response (str "now") (str "/sub/")).headers
        (str "Content-Length")).isSome = true ∧
     get_header_value (redirect_response (str "now") (str "/sub/")).headers
        (str "Connection") = some (str "close") ∧
     ((redirect_response (str "now") (str "/sub/")).headers.head? ≠
        some (str "HTTP/1.1 301 Moved Permanently") →
       (get_header_value (redirect_response (str "now") (str "/sub/")).headers
          (str "Content-Type")).isSome = true) ∧
     ((redirect_response (str "now") (str "/sub/")).headers.head? =
        some (str "HTTP/1.1 301 Moved Permanently") →
       (get_header_value (redirect_response (str "now") (str "/sub/")).headers
          (str "Location")).isSome = true ∧
       get_header_value (redirect_response (str "now") (str "/sub/")).headers
          (str "Content-Type") = none)) :=
  ⟨by decide,
   response_headers_amended fs_one_dir (str "root") (str "now")
     (mk_get_request (str "/sub") (str "Host: h"))
     (redirect_response (str "now") (str "/sub/")) (by decide)⟩

/-! ### Codec byte-level lemmas (C4, C8) -/

theorem char_toNat_ofNat (n : Nat) (h : n < 0xD800) : (Char.ofNat n).toNat = n := by
  have hv : n.isValidChar := Or.inl h
  simp [Char.ofNat, hv, Char.toNat]
  rfl

theorem latin1_byte_preserving (bs : List Nat) (h : ∀ b ∈ bs, b < 256) :
    (latin1_decode bs).map Char.toNat = bs := by
  induction bs with
  | nil => rfl
  | cons b rest ih =>
    have hb : b < 256 := h b (by simp)
    have hrest : ∀ x ∈ rest, x < 256 := fun x hx => h x (List.mem_cons_of_mem _ hx)
    show (Char.ofNat b).toNat :: (latin1_decode rest).map Char.toNat = b :: rest
    rw [char_toNat_ofNat b (by omega), ih hrest]

theorem utf8_decode_go_ascii (err : List Char) (bs : List Nat) :
    ∀ fuel, (∀ b ∈ bs, b < 0x80) → bs.length ≤ fuel →
      utf8_decode_go err fuel bs = bs.map Char.ofNat := by
  induction bs with
  | nil => intro fuel _ _; cases fuel <;> rfl
  | cons b rest ih =>
    intro fuel h hlen
    cases fuel with
    | zero => simp at hlen
    | succ fuel =>
      have hb : b < 0x80 := h b (by simp)
      have hstep : utf8_decode_go err (fuel + 1) (b :: rest) =
          Char.ofNat b :: utf8_decode_go err fuel rest := by
        rw [utf8_decode_go.eq_def]
        simp [hb]
      rw [hstep,
        ih fuel (fun x hx => h x (List.mem_cons_of_mem _ hx)) (by simpa using hlen)]
      rfl

theorem server_decode_ascii_id (bs : List Nat) (h : ∀ b ∈ bs, b < 0x80) :
    (server_decode_request bs).map Char.toNat = bs := by
  rw [server_decode_request, utf8_decode_ignore, utf8_decode_with,
    utf8_decode_go_ascii [] bs bs.length h le_rfl]
  exact latin1_byte_preserving bs (fun b hb => by have := h b hb; omega)

/-- Counterexample to C4: the server's request decoding (UTF-8 with
`errors='ignore'`, server.py line 58) silently drops bytes that are not
valid UTF-8 instead of preserving them, unlike the client's Latin-1
decoding. -/
theorem server_decode_drops_bytes_cx :
    (server_decode_request [71, 255]).map Char.toNat = [71] ∧
    (server_decode_request [71, 255]).map Char.toNat ≠ [71, 255] ∧
    (latin1_decode [71, 255]).map Char.toNat = [71, 255] := by
  decide

/-- C4 as amended: the client's header decoding is Latin-1 and
byte-preserving on every byte buffer; the server's request decoding is
UTF-8 with errors ignored — total (never raises) and the identity on
ASCII, but it drops invalid bytes, so it is not byte-preserving; the
client returns body bytes verbatim, never implicitly decoded. -/
theorem header_decoding_amended :
    (∀ bs : List Nat, (∀ b ∈ bs, b < 256) → (latin1_decode bs).map Char.toNat = bs) ∧
    (∀ bs : List Nat, (∀ b ∈ bs, b < 0x80) →
      (server_decode_request bs).map Char.toNat = bs) ∧
    (server_decode_request [71, 255]).map Char.toNat = [71] ∧
    (∀ (raw : List Nat) (i : Nat), find_delim raw = some i →
      (parse_response raw).map Prod.snd = some (raw.drop (i + 4))) := by
  refine ⟨latin1_byte_preserving, server_decode_ascii_id, by decide, ?_⟩
  intro raw i h
  simp only [parse_response, h]
  rfl

/-- Witness for the amended C4 at concrete buffers. -/
theorem header_decoding_amended_witness :
    (latin1_decode [72, 200]).map Char.toNat = [72, 200] ∧
    (server_decode_request [72, 73]).map Char.toNat = [72, 73] ∧
    (parse_response [65, 13, 10, 13, 10, 7, 8]).map Prod.snd = some [7, 8] :=
  ⟨header_decoding_amended.1 [72, 200] (by decide),
   header_decoding_amended.2.1 [72, 73] (by decide),
   by
    have := header_decoding_amended.2.2.2 [65, 13, 10, 13, 10, 7, 8] 1 (by decide)
    simpa using this⟩

theorem seq_starts_latin1 (pat l : List Nat) (hp : ∀ b ∈ pat, b < 256)
    (hl : ∀ b ∈ l, b < 256) :
    seq_starts (pat.map Char.ofNat) (l.map Char.ofNat) = seq_starts pat l := by
  induction pat generalizing l with
  | nil => rfl
  | cons p ps ih =>
    cases l with
    | nil => rfl
    | cons c cs =>
      have hpc : p < 256 := hp p (by simp)
      have hcc : c < 256 := hl c (by simp)
      by_cases he : p = c
      · rw [List.map_cons, List.map_cons, seq_starts, if_pos (by rw [he]),
          seq_starts, if_pos he]
        exact ih cs (fun b hb => hp b (List.mem_cons_of_mem _ hb))
          (fun b hb => hl b (List.mem_cons_of_mem _ hb))
      · have hne : Char.ofNat p ≠ Char.ofNat c := by
          intro habs
          apply he
          have := congrArg Char.toNat habs
          rwa [char_toNat_ofNat p (by omega), char_toNat_ofNat c (by omega)] at this
        rw [List.map_cons, List.map_cons, seq_starts, if_neg hne, seq_starts, if_neg he]

theorem take_until_crlf2_all (l : List Nat) (hb : ∀ b ∈ l, b < 256)
    (h : find_delim l = none) :
    take_until_crlf2 (latin1_decode l) = latin1_decode l := by
  induction l with
  | nil => rfl
  | cons b rest ih =>
    have hfind : find_delim (b :: rest) = none := h
    rw [find_delim] at hfind
    by_cases hseq : seq_starts [13, 10, 13, 10] (b :: rest)
    · rw [if_pos hseq] at hfind; cases hfind
    · rw [if_neg hseq] at hfind
      have hrest : find_delim rest = none := by
        cases hr : find_delim rest with
        | none => rfl
        | some j => rw [hr] at hfind; cases hfind
      have hbl : ∀ x ∈ rest, x < 256 := fun x hx => hb x (List.mem_cons_of_mem _ hx)
      have hlat : latin1_decode (b :: rest) = Char.ofNat b :: latin1_decode rest := rfl
      have hcond : seq_starts (str "\r\n\r\n") (Char.ofNat b :: latin1_decode rest) =
          false := by
        have hform : str "\r\n\r\n" = ([13, 10, 13, 10] : List Nat).map Char.ofNat := rfl
        rw [hform,
          show (Char.ofNat b :: latin1_decode rest : PyStr) =
            (b :: rest).map Char.ofNat from rfl,
          seq_starts_latin1 [13, 10, 13, 10] (b :: rest) (by decide) hb]
        simpa using hseq
      rw [hlat, take_until_crlf2, if_neg (by simp [hcond]), ih hbl hrest]

/-- C8: a raw buffer without the double-CRLF delimiter is decoded without
failure: the whole buffer becomes the header section and the body is
empty. -/
theorem no_delimiter_lenient_decode (raw : List Nat) (hb : ∀ b ∈ raw, b < 256)
    (h : find_delim raw = none) :
    parse_response raw = some (split_crlf (latin1_decode raw), []) := by
  simp only [parse_response, h]
  rw [take_until_crlf2_all raw hb h]

/-- Witness for C8 at a delimiter-free buffer containing a lone CRLF. -/
theorem no_delimiter_lenient_decode_witness :
    find_delim [72, 73, 13, 10, 74] = none ∧
    parse_response [72, 73, 13, 10, 74] =
      some (split_crlf (latin1_decode [72, 73, 13, 10, 74]), []) :=
  ⟨by decide,
   no_delimiter_lenient_decode [72, 73, 13, 10, 74] (by decide) (by decide)⟩

/-! ### Framing round-trip infrastructure (C6) -/

theorem nat_digits_go_bounds : ∀ (fuel n : Nat), ∀ c ∈ nat_digits_go fuel n,
    48 ≤ c.toNat ∧ c.toNat ≤ 57 := by
  intro fuel
  induction fuel with
  | zero =>
    intro n c hc
    have hm : n % 10 < 10 := Nat.mod_lt _ (by omega)
    simp only [nat_digits_go, List.mem_singleton] at hc
    subst hc
    rw [char_toNat_ofNat _ (by omega)]
    omega
  | succ fuel ih =>
    intro n c hc
    by_cases hn : n < 10
    · simp only [nat_digits_go, if_pos hn, List.mem_singleton] at hc
      subst hc
      rw [char_toNat_ofNat _ (by omega)]
      omega
    · simp only [nat_digits_go, if_neg hn, List.mem_append, List.mem_singleton] at hc
      rcases hc with hc | hc
      · exact ih (n / 10) c hc
      · subst hc
        have hm : n % 10 < 10 := Nat.mod_lt _ (by omega)
        rw [char_toNat_ofNat _ (by omega)]
        omega

theorem nat_digits_bounds (n : Nat) : ∀ c ∈ nat_digits n, 48 ≤ c.toNat ∧ c.toNat ≤ 57 :=
  nat_digits_go_bounds n n

theorem nat_digits_go_ne_nil (fuel n : Nat) : nat_digits_go fuel n ≠ [] := by
  cases fuel with
  | zero => simp [nat_digits_go]
  | succ fuel =>
    by_cases hn : n < 10
    · simp [nat_digits_go, hn]
    · simp [nat_digits_go, hn]

theorem nat_digits_ne_nil (n : Nat) : nat_digits n ≠ [] := nat_digits_go_ne_nil n n

theorem digit_char_props (c : Char) (h1 : 48 ≤ c.toNat) (h2 : c.toNat ≤ 57) :
    py_is_space c = false ∧ c.toNat < 0x80 ∧ c ≠ '\r' ∧ c ≠ '\n' := by
  refine ⟨?_, by omega, ?_, ?_⟩
  · by_contra hc
    have hc' : py_is_space c = true := by revert hc; cases py_is_space c <;> simp
    simp only [py_is_space, Bool.or_eq_true, beq_iff_eq] at hc'
    rcases hc' with ((((h | h) | h) | h) | h) | h <;> (subst h; revert h1 h2; decide)
  · intro h; subst h; revert h1; decide
  · intro h; subst h; revert h1; decide

theorem py_int_digits_append_digit (a : PyStr) (d : Char) :
    py_int_digits (a ++ [d]) = 10 * py_int_digits a + (d.toNat - 48) := by
  simp [py_int_digits, List.foldl_append, Nat.mul_comm]

theorem py_int_nat_digits_go : ∀ (fuel n : Nat), n ≤ fuel →
    py_int_digits (nat_digits_go fuel n) = n := by
  intro fuel
  induction fuel with
  | zero =>
    intro n hn
    have h0 : n = 0 := by omega
    subst h0
    decide
  | succ fuel ih =>
    intro n hn
    by_cases h : n < 10
    · simp only [nat_digits_go, if_pos h]
      show 0 * 10 + ((Char.ofNat (48 + n)).toNat - 48) = n
      rw [char_toNat_ofNat _ (by omega)]
      omega
    · simp only [nat_digits_go, if_neg h]
      rw [py_int_digits_append_digit, ih (n / 10) (by omega),
        char_toNat_ofNat _ (by have := Nat.mod_lt n (show 0 < 10 by omega); omega)]
      have := Nat.mod_lt n (show 0 < 10 by omega)
      omega

theorem py_int_nat_digits (n : Nat) : py_int_digits (nat_digits n) = n :=
  py_int_nat_digits_go n n le_rfl

theorem py_strip_no_space (s : PyStr) (h : ∀ c ∈ s, py_is_space c = false) :
    py_strip s = s := by
  have h1 : s.dropWhile py_is_space = s := by
    cases s with
    | nil => rfl
    | cons c cs => rw [List.dropWhile_cons_of_neg (by simp [h c (by simp)])]
  have h2 : s.reverse.dropWhile py_is_space = s.reverse := by
    cases hrev : s.reverse with
    | nil => rfl
    | cons c cs =>
      have hc : c ∈ s := by
        rw [← List.mem_reverse, hrev]
        simp
      rw [List.dropWhile_cons_of_neg (by simp [h c hc])]
  rw [py_strip, h1, h2, List.reverse_reverse]

theorem find_delim_cons (b : Nat) (l : List Nat) (hb : b ≠ 13) :
    find_delim (b :: l) = (find_delim l).map (· + 1) := by
  rw [find_delim, if_neg]
  rw [seq_starts, if_neg (by omega)]
  simp

theorem find_delim_here (s : List Nat) :
    find_delim (13 :: 10 :: 13 :: 10 :: s) = some 0 := by
  rw [find_delim, if_pos]
  rw [show (13 :: 10 :: 13 :: 10 :: s : List Nat) = [13, 10, 13, 10] ++ s from rfl]
  exact seq_starts_append _ s

theorem find_delim_skip (a l : List Nat) (ha : 13 ∉ a) :
    find_delim (a ++ l) = (find_delim l).map (· + a.length) := by
  induction a with
  | nil => cases h : find_delim l <;> simp [h]
  | cons c cs ih =>
    have hc : c ≠ 13 := fun e => ha (by simp [e])
    have hcs : 13 ∉ cs := fun m => ha (List.mem_cons_of_mem _ m)
    rw [List.cons_append, find_delim_cons c _ hc, ih hcs]
    cases h : find_delim l with
    | none => simp [h]
    | some j =>
      simp only [h, Option.map_some', List.length_cons]
      congr 1

theorem find_delim_sep (s : List Nat) (hs : seq_starts [13, 10] s = false) :
    find_delim (13 :: 10 :: s) = (find_delim s).map (· + 2) := by
  rw [find_delim, if_neg (by rw [seq_starts, if_pos rfl, seq_starts, if_pos rfl]; simp [hs]),
    find_delim_cons 10 s (by omega)]
  cases h : find_delim s with
  | none => simp [h]
  | some j => simp only [h, Option.map_some']

theorem intercalate_pair {α} (sep a b : List α) (t : List (List α)) :
    List.intercalate sep (a :: b :: t) = a ++ sep ++ List.intercalate sep (b :: t) := by
  simp [List.intercalate, List.intersperse]

theorem intercalate_single {α} (sep x : List α) : List.intercalate sep [x] = x := by
  simp [List.intercalate]

theorem find_delim_join_lines : ∀ (lines : List (List Nat)) (B : List Nat),
    lines ≠ [] → (∀ L ∈ lines, L ≠ [] ∧ 13 ∉ L) →
    find_delim (List.intercalate [13, 10] lines ++ [13, 10, 13, 10] ++ B) =
      some (List.intercalate [13, 10] lines).length := by
  intro lines
  induction lines with
  | nil => intro B h; exact absurd rfl h
  | cons L rest ih =>
    intro B _ hok
    cases rest with
    | nil =>
      rw [intercalate_single]
      obtain ⟨hLne, hL13⟩ := hok L (by simp)
      rw [List.append_assoc, find_delim_skip L _ hL13,
        show ([13, 10, 13, 10] ++ B : List Nat) = 13 :: 10 :: 13 :: 10 :: B from rfl,
        find_delim_here]
      simp
    | cons L' ls =>
      rw [intercalate_pair]
      obtain ⟨hLne, hL13⟩ := hok L (by simp)
      obtain ⟨hL'ne, hL'13⟩ := hok L' (by simp)
      have hI : ∃ r, List.intercalate [13, 10] (L' :: ls) = L' ++ r := by
        cases ls with
        | nil => exact ⟨[], by rw [intercalate_single]; simp⟩
        | cons x xs => exact ⟨[13, 10] ++ List.intercalate [13, 10] (x :: xs),
            by rw [intercalate_pair]; simp⟩
      obtain ⟨restI, hrestI⟩ := hI
      have hssI : seq_starts [13, 10]
          (List.intercalate [13, 10] (L' :: ls) ++ [13, 10, 13, 10] ++ B) = false := by
        rw [hrestI]
        cases L' with
        | nil => exact absurd rfl hL'ne
        | cons c cs =>
          have hc : c ≠ 13 := fun e => hL'13 (by simp [e])
          rw [List.cons_append, List.cons_append, List.cons_append, seq_starts,
            if_neg (by omega)]
      have hassoc : L ++ [13, 10] ++ List.intercalate [13, 10] (L' :: ls) ++
          [13, 10, 13, 10] ++ B =
          L ++ (13 :: 10 ::
            (List.intercalate [13, 10] (L' :: ls) ++ [13, 10, 13, 10] ++ B)) := by
        simp
      rw [hassoc, find_delim_skip L _ hL13, find_delim_sep _ hssI,
        ih B (by simp) (fun x hx => hok x (List.mem_cons_of_mem _ hx))]
      simp [List.length_append]
      omega

theorem utf8_encode_append (a b : PyStr) :
    utf8_encode (a ++ b) = utf8_encode a ++ utf8_encode b := by
  simp [utf8_encode]

theorem utf8_encode_crlf_join : ∀ lines : List PyStr,
    utf8_encode (crlf_join lines) = List.intercalate [13, 10] (lines.map utf8_encode) := by
  intro lines
  induction lines with
  | nil => rfl
  | cons a rest ih =>
    cases rest with
    | nil =>
      rw [crlf_join, intercalate_single, List.map_cons, List.map_nil, intercalate_single]
    | cons b t =>
      rw [crlf_join, intercalate_pair, List.map_cons, List.map_cons, intercalate_pair,
        utf8_encode_append, utf8_encode_append,
        show utf8_encode (str "\r\n") = [13, 10] from rfl]
      rw [crlf_join, List.map_cons] at ih
      rw [ih]

theorem utf8_encode_char_ascii (c : Char) (h : c.toNat < 0x80) :
    utf8_encode_char c = [c.toNat] := by
  simp only [utf8_encode_char]
  rw [if_pos h]

theorem utf8_encode_ascii (s : PyStr) (h : ∀ c ∈ s, c.toNat < 0x80) :
    utf8_encode s = s.map Char.toNat := by
  induction s with
  | nil => rfl
  | cons c cs ih =>
    show utf8_encode_char c ++ utf8_encode cs = c.toNat :: cs.map Char.toNat
    rw [utf8_encode_char_ascii c (h c (by simp)),
      ih (fun x hx => h x (List.mem_cons_of_mem _ hx))]
    rfl

theorem latin1_utf8_encode_ascii (s : PyStr) (h : ∀ c ∈ s, c.toNat < 0x80) :
    latin1_decode (utf8_encode s) = s := by
  rw [utf8_encode_ascii s h, latin1_decode, List.map_map]
  conv_rhs => rw [← List.map_id s]
  apply List.map_congr_left
  intro c _
  exact Char.ofNat_toNat c

theorem mem_crlf_join : ∀ (lines : List PyStr) (c : Char), c ∈ crlf_join lines →
    c ∈ str "\r\n" ∨ ∃ ln ∈ lines, c ∈ ln := by
  intro lines
  induction lines with
  | nil => intro c hc; cases hc
  | cons a rest ih =>
    cases rest with
    | nil =>
      intro c hc
      rw [crlf_join, intercalate_single] at hc
      exact Or.inr ⟨a, by simp, hc⟩
    | cons b t =>
      intro c hc
      rw [crlf_join, intercalate_pair, List.append_assoc, List.mem_append] at hc
      rcases hc with hc | hc
      · exact Or.inr ⟨a, by simp, hc⟩
      · rw [List.mem_append] at hc
        rcases hc with hc | hc
        · exact Or.inl hc
        · rcases ih c hc with h | ⟨ln, hln, hcln⟩
          · exact Or.inl h
          · exact Or.inr ⟨ln, List.mem_cons_of_mem _ hln, hcln⟩

theorem split_crlf_no_cr (x : PyStr) (h : '\r' ∉ x) : split_crlf x = [x] := by
  induction x with
  | nil => rfl
  | cons c cs ih =>
    have hc : c ≠ '\r' := fun e => h (by simp [e])
    have hcs : '\r' ∉ cs := fun m => h (List.mem_cons_of_mem _ m)
    rw [split_crlf.eq_def]
    split
    · simp_all
    · next heq => injection heq with h1 _; exact absurd h1 hc
    · next c' rest' x' heq =>
      injection heq with h1 h2
      subst h1
      subst h2
      rw [ih hcs]

theorem split_crlf_sep (a rest : PyStr) (h : '\r' ∉ a) :
    split_crlf (a ++ '\r' :: '\n' :: rest) = a :: split_crlf rest := by
  induction a with
  | nil => rfl
  | cons c cs ih =>
    have hc : c ≠ '\r' := fun e => h (by simp [e])
    have hcs : '\r' ∉ cs := fun m => h (List.mem_cons_of_mem _ m)
    rw [List.cons_append, split_crlf.eq_def]
    split
    · simp_all
    · next heq => injection heq with h1 _; exact absurd h1 hc
    · next c' rest' x' heq =>
      injection heq with h1 h2
      subst h1
      rw [← h2, ih hcs]

theorem split_crlf_join : ∀ lines : List PyStr, lines ≠ [] →
    (∀ ln ∈ lines, '\r' ∉ ln) → split_crlf (crlf_join lines) = lines := by
  intro lines
  induction lines with
  | nil => intro h; exact absurd rfl h
  | cons a rest ih =>
    intro _ hok
    cases rest with
    | nil =>
      rw [crlf_join, intercalate_single]
      exact split_crlf_no_cr a (hok a (by simp))
    | cons b t =>
      rw [crlf_join, intercalate_pair,
        show (a ++ str "\r\n" ++ List.intercalate (str "\r\n") (b :: t) : PyStr) =
          a ++ '\r' :: '\n' :: List.intercalate (str "\r\n") (b :: t) by simp [str],
        split_crlf_sep a _ (hok a (by simp))]
      rw [crlf_join] at ih
      rw [ih (by simp) (fun x hx => hok x (List.mem_cons_of_mem _ hx))]

theorem statusline_parse (code : Nat) (text : PyStr) :
    parse_status_code (str "HTTP/1.1 " ++ nat_digits code ++ ' ' :: text) = some code := by
  have hdig_nospace : ∀ c ∈ nat_digits code, py_is_space c = false := by
    intro c hc
    obtain ⟨h1, h2⟩ := nat_digits_bounds code c hc
    exact (digit_char_props c h1 h2).1
  have hshape : str "HTTP/1.1 " ++ nat_digits code ++ ' ' :: text =
      str "HTTP/1.1" ++ (' ' :: (nat_digits code ++ ' ' :: text)) := by simp [str]
  rw [parse_status_code, py_split_ws, hshape,
    py_split_ws_aux_word _ (by decide),
    py_split_ws_aux_space _ _ (by simp [str]),
    py_split_ws_aux_word _ hdig_nospace,
    py_split_ws_aux_space _ _ (by simpa using nat_digits_ne_nil code)]
  simp [py_int_nat_digits]

/-- C6 as amended: for any status code, body, and CR/LF-free ASCII header
values (content type additionally stripped of outer whitespace), decoding
the encoded response recovers the exact header lines and body bytes;
the parsed status code equals the encoded one, the Content-Type header
value is the encoded content type, and the Content-Length header always
equals the decimal byte length of the body. -/
theorem codec_round_trip (now : PyStr) (code : Nat) (text ctype : PyStr)
    (body : List Nat)
    (hnow : ∀ c ∈ now, c.toNat < 0x80 ∧ c ≠ '\r' ∧ c ≠ '\n')
    (htext : ∀ c ∈ text, c.toNat < 0x80 ∧ c ≠ '\r' ∧ c ≠ '\n')
    (hct : ∀ c ∈ ctype, c.toNat < 0x80 ∧ c ≠ '\r' ∧ c ≠ '\n')
    (hctstrip : py_strip ctype = ctype) :
    parse_response (encode_response (send_response now code text ctype body)) =
      some ((send_response now code text ctype body).headers, body) ∧
    ((send_response now code text ctype body).headers.head?.map parse_status_code) =
      some (some code) ∧
    get_header_value (send_response now code text ctype body).headers
      (str "Content-Type") = some ctype ∧
    get_header_value (send_response now code text ctype body).headers
      (str "Content-Length") = some (nat_digits body.length) := by
  have hdigits : ∀ n : Nat, ∀ c ∈ nat_digits n,
      c.toNat < 0x80 ∧ c ≠ '\r' ∧ c ≠ '\n' := by
    intro n c hc
    obtain ⟨h1, h2⟩ := nat_digits_bounds n c hc
    obtain ⟨_, ha, hb, hcn⟩ := digit_char_props c h1 h2
    exact ⟨ha, hb, hcn⟩
  have hlines : ∀ ln ∈ (send_response now code text ctype body).headers,
      ln ≠ [] ∧ ∀ c ∈ ln, c.toNat < 0x80 ∧ c ≠ '\r' ∧ c ≠ '\n' := by
    have hlit1 : ∀ c ∈ str "HTTP/1.1 ", c.toNat < 0x80 ∧ c ≠ '\r' ∧ c ≠ '\n' := by decide
    have hlit2 : ∀ c ∈ str "Date: ", c.toNat < 0x80 ∧ c ≠ '\r' ∧ c ≠ '\n' := by decide
    have hlit3 : ∀ c ∈ str "Content-Type: ", c.toNat < 0x80 ∧ c ≠ '\r' ∧ c ≠ '\n' := by
      decide
    have hlit4 : ∀ c ∈ str "Content-Length: ", c.toNat < 0x80 ∧ c ≠ '\r' ∧ c ≠ '\n' := by
      decide
    intro ln hln
    simp only [send_response, List.mem_cons, List.not_mem_nil, or_false] at hln
    rcases hln with rfl | rfl | rfl | rfl | rfl
    · refine ⟨by simp [str], ?_⟩
      intro c hc
      rcases List.mem_append.mp hc with hc | hc
      · rcases List.mem_append.mp hc with hc | hc
        · exact hlit1 c hc
        · exact hdigits code c hc
      · rcases List.mem_cons.mp hc with rfl | hc
        · decide
        · exact htext c hc
    · refine ⟨by simp [str], ?_⟩
      intro c hc
      rcases List.mem_append.mp hc with hc | hc
      · exact hlit2 c hc
      · exact hnow c hc
    · refine ⟨by simp [str], ?_⟩
      intro c hc
      rcases List.mem_append.mp hc with hc | hc
      · exact hlit3 c hc
      · exact hct c hc
    · refine ⟨by simp [str], ?_⟩
      intro c hc
      rcases List.mem_append.mp hc with hc | hc
      · exact hlit4 c hc
      · exact hdigits body.length c hc
    · exact ⟨by simp [str], by decide⟩
  have hbytes : ∀ L ∈ (send_response now code text ctype body).headers.map utf8_encode,
      L ≠ [] ∧ 13 ∉ L := by
    intro L hL
    rcases List.mem_map.mp hL with ⟨ln, hln, rfl⟩
    obtain ⟨hne, hch⟩ := hlines ln hln
    have hascii : ∀ c ∈ ln, c.toNat < 0x80 := fun c hc => (hch c hc).1
    constructor
    · rw [utf8_encode_ascii ln hascii]
      simpa using hne
    · rw [utf8_encode_ascii ln hascii]
      intro hm
      rcases List.mem_map.mp hm with ⟨c, hc, hc13⟩
      have hcr : c = '\r' := by
        rw [← Char.ofNat_toNat c, hc13]
      exact (hch c hc).2.1 hcr
  have hascii_join : ∀ c ∈ crlf_join (send_response now code text ctype body).headers,
      c.toNat < 0x80 := by
    intro c hc
    have hsep : ∀ x ∈ str "\r\n", x.toNat < 0x80 := by decide
    rcases mem_crlf_join _ c hc with h | ⟨ln, hln, hcln⟩
    · exact hsep c h
    · exact ((hlines ln hln).2 c hcln).1
  have hcrfree : ∀ ln ∈ (send_response now code text ctype body).headers, '\r' ∉ ln :=
    fun ln hln m => ((hlines ln hln).2 _ m).2.1 rfl
  have hfind : find_delim (encode_response (send_response now code text ctype body)) =
      some (utf8_encode (crlf_join (send_response now code text ctype body).headers)).length := by
    rw [encode_response, utf8_encode_crlf_join]
    exact find_delim_join_lines _ body (by simp [send_response]) hbytes
  refine ⟨?_, ?_, ?_, ?_⟩
  · simp only [parse_response, hfind]
    rw [encode_response, List.append_assoc, List.take_left, ← List.drop_drop,
      List.drop_left,
      show (([13, 10, 13, 10] ++
        (send_response now code text ctype body).body : List Nat)).drop 4 = body from rfl,
      latin1_utf8_encode_ascii _ hascii_join,
      split_crlf_join _ (by simp [send_response]) hcrfree]
  · rw [show (send_response now code text ctype body).headers.head? =
      some (str "HTTP/1.1 " ++ nat_digits code ++ ' ' :: text) from rfl]
    rw [Option.map_some', statusline_parse]
  · rw [gh_send_ct, hctstrip]
  · rw [gh_send_cl, py_strip_no_space _ (fun c hc => by
      obtain ⟨h1, h2⟩ := nat_digits_bounds body.length c hc
      exact (digit_char_props c h1 h2).1)]

/-- Counterexample to C6: a content type containing a CRLF breaks the
round trip — the decoded Content-Type header value is only the part
before the CR, not the encoded string. -/
theorem round_trip_crlf_ctype_cx :
    (parse_response (encode_response
        (send_response (str "D") 200 (str "OK") (str "a\r\nb") []))).map
      (fun pr => get_header_value pr.1 (str "Content-Type")) = some (some (str "a")) ∧
    str "a" ≠ str "a\r\nb" := by
  decide

/-- Witness for the amended C6 at a concrete response. -/
theorem codec_round_trip_witness :
    parse_response (encode_response
        (send_response (str "D") 200 (str "OK") (str "text/html") [1, 2])) =
      some ((send_response (str "D") 200 (str "OK") (str "text/html") [1, 2]).headers,
        [1, 2]) ∧
    ((send_response (str "D") 200 (str "OK") (str "text/html")
        [1, 2]).headers.head?.map parse_status_code) = some (some 200) ∧
    get_header_value (send_response (str "D") 200 (str "OK") (str "text/html")
        [1, 2]).headers (str "Content-Type") = some (str "text/html") ∧
    get_header_value (send_response (str "D") 200 (str "OK") (str "text/html")
        [1, 2]).headers (str "Content-Length") = some (nat_digits 2) :=
  codec_round_trip (str "D") 200 (str "OK") (str "text/html") [1, 2]
    (by decide) (by decide) (by decide) (by decide)

/-! ### Directory-listing anchor extraction (C7) -/

theorem char_toNat_lt (c : Char) : c.toNat < 1114112 := by
  show c.val.toNat < 1114112
  rcases c.valid with h | ⟨_, h⟩ <;> omega

theorem utf8_encode_char_lt_256 (c : Char) : ∀ b ∈ utf8_encode_char c, b < 256 := by
  intro b hb
  have hv := char_toNat_lt c
  simp only [utf8_encode_char] at hb
  split_ifs at hb with h1 h2 h3
  · simp only [List.mem_singleton] at hb
    omega
  · simp only [List.mem_cons, List.not_mem_nil, or_false] at hb
    rcases hb with rfl | rfl <;> omega
  · simp only [List.mem_cons, List.not_mem_nil, or_false] at hb
    rcases hb with rfl | rfl | rfl <;> omega
  · simp only [List.mem_cons, List.not_mem_nil, or_false] at hb
    rcases hb with rfl | rfl | rfl | rfl <;> omega

theorem ofNat_ne_of_toNat_ne (m : Nat) (hm : m < 0xD800) (d : Char)
    (hne : m ≠ d.toNat) : Char.ofNat m ≠ d := by
  intro e
  apply hne
  rw [← char_toNat_ofNat m hm, e]

theorem hex_upper_props (n : Nat) (hn : n < 16) :
    hex_upper n ≠ '"' ∧ hex_upper n ≠ '\n' := by
  rw [hex_upper]
  by_cases h : n < 10
  · rw [if_pos h]
    constructor
    · exact ofNat_ne_of_toNat_ne (48 + n) (by omega) '"'
        (by rw [show ('"').toNat = 34 from rfl]; omega)
    · exact ofNat_ne_of_toNat_ne (48 + n) (by omega) '\n'
        (by rw [show ('\n').toNat = 10 from rfl]; omega)
  · rw [if_neg h]
    constructor
    · exact ofNat_ne_of_toNat_ne (55 + n) (by omega) '"'
        (by rw [show ('"').toNat = 34 from rfl]; omega)
    · exact ofNat_ne_of_toNat_ne (55 + n) (by omega) '\n'
        (by rw [show ('\n').toNat = 10 from rfl]; omega)

theorem quote_chars (s : PyStr) : ∀ c ∈ urllib_quote s, c ≠ '"' ∧ c ≠ '\n' := by
  intro c hc
  rw [urllib_quote] at hc
  rcases List.mem_flatten.mp hc with ⟨piece, hp, hcp⟩
  rcases List.mem_map.mp hp with ⟨b, hb, rfl⟩
  have hb256 : b < 256 := by
    rw [utf8_encode] at hb
    rcases List.mem_flatten.mp hb with ⟨pp, hpp, hbpp⟩
    rcases List.mem_map.mp hpp with ⟨ch, _, rfl⟩
    exact utf8_encode_char_lt_256 ch b hbpp
  by_cases hsafe : quote_safe_byte b
  · rw [if_pos hsafe] at hcp
    simp only [List.mem_singleton] at hcp
    subst hcp
    have h34 : b ≠ 34 := by
      intro e
      rw [e] at hsafe
      revert hsafe
      decide
    have h10 : b ≠ 10 := by
      intro e
      rw [e] at hsafe
      revert hsafe
      decide
    constructor
    · exact ofNat_ne_of_toNat_ne b (by omega) '"'
        (by rw [show ('"').toNat = 34 from rfl]; exact h34)
    · exact ofNat_ne_of_toNat_ne b (by omega) '\n'
        (by rw [show ('\n').toNat = 10 from rfl]; exact h10)
  · rw [if_neg hsafe] at hcp
    simp only [List.mem_cons, List.not_mem_nil, or_false] at hcp
    rcases hcp with rfl | rfl | rfl
    · exact ⟨by decide, by decide⟩
    · exact hex_upper_props (b / 16) (by omega)
    · exact hex_upper_props (b % 16) (by omega)

theorem split_nl_cons_nl (rest : PyStr) : split_nl ('\n' :: rest) = [] :: split_nl rest := by
  rw [split_nl]
  simp

theorem split_nl_cons_ne (c : Char) (rest : PyStr) (h : c ≠ '\n') :
    split_nl (c :: rest) =
      match split_nl rest with
      | hd :: t => (c :: hd) :: t
      | [] => [[c]] := by
  rw [split_nl]
  simp [h]

theorem split_nl_append_line (a b : PyStr) (h : '\n' ∉ a) :
    split_nl (a ++ '\n' :: b) = a :: split_nl b := by
  induction a with
  | nil => exact split_nl_cons_nl b
  | cons c cs ih =>
    have hc : c ≠ '\n' := fun e => h (by simp [e])
    have hcs : '\n' ∉ cs := fun m => h (List.mem_cons_of_mem _ m)
    rw [List.cons_append, split_nl_cons_ne c _ hc, ih hcs]

theorem split_nl_join (ls : List PyStr) (h : ∀ l ∈ ls, '\n' ∉ l) :
    split_nl (join_nl ls) = ls ++ [[]] := by
  induction ls with
  | nil => rfl
  | cons l rest ih =>
    have hshape : join_nl (l :: rest) = l ++ '\n' :: join_nl rest := by
      simp [join_nl]
    rw [hshape, split_nl_append_line l _ (h l (by simp)),
      ih (fun x hx => h x (List.mem_cons_of_mem _ hx))]
    rfl

theorem takeWhile_stop {α} (p : α → Bool) (xs : List α) (y : α) (ys : List α)
    (hxs : ∀ x ∈ xs, p x = true) (hy : p y = false) :
    (xs ++ y :: ys).takeWhile p = xs ∧ (xs ++ y :: ys).dropWhile p = y :: ys := by
  induction xs with
  | nil =>
    constructor
    · rw [List.nil_append, List.takeWhile_cons_of_neg (by simp [hy])]
    · rw [List.nil_append, List.dropWhile_cons_of_neg (by simp [hy])]
  | cons x xs ih =>
    obtain ⟨ih1, ih2⟩ := ih (fun z hz => hxs z (List.mem_cons_of_mem _ hz))
    have hx : p x = true := hxs x (by simp)
    constructor
    · rw [List.cons_append, List.takeWhile_cons_of_pos (by simp [hx]), ih1]
    · rw [List.cons_append, List.dropWhile_cons_of_pos (by simp [hx]), ih2]

theorem ends_with_append {α} [DecidableEq α] (a suf : List α) :
    ends_with (a ++ suf) suf = true := by
  rw [ends_with, List.reverse_append]
  exact seq_starts_append _ _

theorem anchor_of_line_correct (link label : PyStr) (hl : '"' ∉ link) :
    anchor_of_line (anchor_core link label) = some (link, label) := by
  have hshape : anchor_core link label =
      str "<a href=\"" ++ (link ++ '"' :: '>' :: (label ++ str "</a>")) := by
    simp [anchor_core, str]
  obtain ⟨htake, hdrop⟩ := takeWhile_stop (fun c => decide (c ≠ '"')) link '"'
    ('>' :: (label ++ str "</a>"))
    (fun x hx => by
      simp only [decide_eq_true_eq]
      exact fun e => hl (e ▸ hx))
    (by simp)
  rw [hshape, anchor_of_line,
    if_pos (seq_starts_append (str "<a href=\"") _),
    show (str "<a href=\"" ++ (link ++ '"' :: '>' :: (label ++ str "</a>"))).drop 9 =
      link ++ '"' :: '>' :: (label ++ str "</a>") from
      List.drop_left (str "<a href=\"") _,
    htake, hdrop]
  show (if ends_with (label ++ str "</a>") (str "</a>") = true then
      some (link, (label ++ str "</a>").take ((label ++ str "</a>").length - 4))
    else none) = some (link, label)
  rw [if_pos (ends_with_append label (str "</a>"))]
  rw [show (label ++ str "</a>").length - 4 = label.length from by
      simp only [List.length_append]
      rw [show (str "</a>").length = 4 from rfl]
      omega,
    List.take_left]

theorem filterMap_eq_map_of_forall {α β} (g : α → Option β) (f : α → β) :
    ∀ l : List α, (∀ x ∈ l, g x = some (f x)) → l.filterMap g = l.map f := by
  intro l
  induction l with
  | nil => intro _; rfl
  | cons a rest ih =>
    intro h
    rw [List.filterMap_cons, h a (by simp),
      ih (fun x hx => h x (List.mem_cons_of_mem _ hx))]
    rfl

theorem mem_py_sorted_insert (x y : PyStr) (l : List PyStr)
    (h : y ∈ py_sorted_insert x l) : y = x ∨ y ∈ l := by
  induction l with
  | nil => simp [py_sorted_insert] at h; exact Or.inl h
  | cons z zs ih =>
    rw [py_sorted_insert] at h
    by_cases hle : pystr_le x z
    · rw [if_pos hle] at h
      rcases List.mem_cons.mp h with rfl | h
      · exact Or.inl rfl
      · exact Or.inr h
    · rw [if_neg hle] at h
      rcases List.mem_cons.mp h with rfl | h
      · exact Or.inr (by simp)
      · rcases ih h with h' | h'
        · exact Or.inl h'
        · exact Or.inr (List.mem_cons_of_mem _ h')

theorem mem_py_sorted (l : List PyStr) (x : PyStr) (h : x ∈ py_sorted l) : x ∈ l := by
  induction l generalizing x with
  | nil => simpa [py_sorted] using h
  | cons y ys ih =>
    rw [py_sorted] at h
    rcases mem_py_sorted_insert y x _ h with rfl | h
    · simp
    · exact List.mem_cons_of_mem _ (ih x h)

theorem mem_os_path_join (a b : PyStr) (c : Char) (hc : c ∈ os_path_join a b) :
    c ∈ a ∨ c ∈ b ∨ c = '/' := by
  rw [os_path_join] at hc
  split_ifs at hc
  · exact Or.inr (Or.inl hc)
  · rcases List.mem_append.mp hc with hc | hc
    · exact Or.inl hc
    · exact Or.inr (Or.inl hc)
  · rcases List.mem_append.mp hc with hc | hc
    · exact Or.inl hc
    · rcases List.mem_cons.mp hc with rfl | hc
      · exact Or.inr (Or.inr rfl)
      · exact Or.inr (Or.inl hc)

theorem mem_backslash_to_slash (s : PyStr) (c : Char) (hc : c ∈ backslash_to_slash s) :
    c = '/' ∨ c ∈ s := by
  rcases List.mem_map.mp hc with ⟨x, hx, rfl⟩
  by_cases hxx : x = '\\'
  · exact Or.inl (by simp [hxx])
  · exact Or.inr (by simpa [hxx] using hx)

theorem join_nl_append (a b : List PyStr) : join_nl (a ++ b) = join_nl a ++ join_nl b := by
  simp [join_nl]

/-- The generated listing HTML, cut into its newline-terminated lines:
fifteen fixed preamble lines (two interpolating the requested path), the
optional parent anchor, one anchor line per sorted entry, and five fixed
closing lines. -/
theorem dir_listing_html_lines (fs : FS) (path req : PyStr) :
    dir_listing_html fs path req = join_nl (
      ([str "", str "<!DOCTYPE html>", str "<html>", str "<head>",
        str "    <title>Directory Listing for " ++ req ++ str "</title>",
        str "    <style>",
        str "        body \x7b font-family: monospace; \x7d",
        str "        a \x7b text-decoration: none; \x7d",
        str "        pre \x7b margin: 0; \x7d",
        str "    </style>", str "</head>", str "<body>",
        str "    <h1>Directory listing for " ++ req ++ str "</h1>",
        str "    <hr>", str "    <pre>"]
      ++ (if req = str "/" then []
          else [anchor_core (os_path_normpath (os_path_join req (str ".."))) (str "../")])
      ++ (py_sorted (fs.listdir path)).map (entry_core fs path req)
      ++ [str "", str "    </pre>", str "    <hr>", str "</body>", str "</html>"])) := by
  have h1 : listing_preamble req = join_nl
      [str "", str "<!DOCTYPE html>", str "<html>", str "<head>",
       str "    <title>Directory Listing for " ++ req ++ str "</title>",
       str "    <style>",
       str "        body \x7b font-family: monospace; \x7d",
       str "        a \x7b text-decoration: none; \x7d",
       str "        pre \x7b margin: 0; \x7d",
       str "    </style>", str "</head>", str "<body>",
       str "    <h1>Directory listing for " ++ req ++ str "</h1>",
       str "    <hr>", str "    <pre>"] := by
    simp [listing_preamble, join_nl, str]
  have h2 : parent_link_html req = join_nl
      (if req = str "/" then []
       else [anchor_core (os_path_normpath (os_path_join req (str ".."))) (str "../")]) := by
    by_cases h : req = str "/"
    · simp [parent_link_html, h, join_nl]
    · simp [parent_link_html, h, join_nl, anchor_line]
  have h3 : ((py_sorted (fs.listdir path)).map
        (fun item => entry_core fs path req item ++ ['\n'])).flatten =
      join_nl ((py_sorted (fs.listdir path)).map (entry_core fs path req)) := by
    simp only [join_nl, List.map_map]
    rfl
  have h4 : listing_postamble = join_nl
      [str "", str "    </pre>", str "    <hr>", str "</body>", str "</html>"] := by
    simp [listing_postamble, join_nl, str]
  rw [dir_listing_html, h1, h2, h3, h4, ← join_nl_append, ← join_nl_append,
    ← join_nl_append]

theorem anchor_core_no_nl (link label : PyStr) (h1 : '\n' ∉ link) (h2 : '\n' ∉ label) :
    '\n' ∉ anchor_core link label := by
  intro hm
  rw [anchor_core] at hm
  rcases List.mem_append.mp hm with hm | hm
  · rcases List.mem_append.mp hm with hm | hm
    · rcases List.mem_append.mp hm with hm | hm
      · rcases List.mem_append.mp hm with hm | hm
        · revert hm; decide
        · exact h1 hm
      · revert hm; decide
    · exact h2 hm
  · revert hm; decide

theorem entry_link_clean (req item : PyStr)
    (hreq : ∀ c ∈ req, c ≠ '\n' ∧ c ≠ '"') :
    '\n' ∉ backslash_to_slash (os_path_join req (urllib_quote item)) ∧
    '"' ∉ backslash_to_slash (os_path_join req (urllib_quote item)) := by
  constructor
  · intro hm
    rcases mem_backslash_to_slash _ _ hm with he | hm2
    · exact absurd he (by decide)
    · rcases mem_os_path_join _ _ _ hm2 with h | h | h
      · exact (hreq _ h).1 rfl
      · exact (quote_chars item _ h).2 rfl
      · exact absurd h (by decide)
  · intro hm
    rcases mem_backslash_to_slash _ _ hm with he | hm2
    · exact absurd he (by decide)
    · rcases mem_os_path_join _ _ _ hm2 with h | h | h
      · exact (hreq _ h).2 rfl
      · exact (quote_chars item _ h).1 rfl
      · exact absurd h (by decide)

/-- C7: the anchors of the generated listing are, in order: exactly one
parent link (absent only for the root path), then one anchor per
directory entry in lexicographically sorted order, whose href joins the
requested path with the percent-encoded entry name (backslashes mapped to
slashes) and whose label is the raw name, both with a trailing slash
exactly for sub-directories. -/
theorem dir_listing_anchors (fs : FS) (path req : PyStr)
    (hreq : ∀ c ∈ req, c ≠ '\n' ∧ c ≠ '"')
    (hitems : ∀ x ∈ fs.listdir path, ∀ c ∈ x, c ≠ '\n' ∧ c ≠ '"')
    (hparent : ∀ c ∈ os_path_normpath (os_path_join req (str "..")),
      c ≠ '\n' ∧ c ≠ '"') :
    extract_anchors (dir_listing_html fs path req) =
      (if req = str "/" then []
       else [(os_path_normpath (os_path_join req (str "..")), str "../")])
      ++ (py_sorted (fs.listdir path)).map (fun item =>
          if fs.isDir (os_path_join path item) then
            (backslash_to_slash (os_path_join req (urllib_quote item)) ++ str "/",
             item ++ str "/")
          else
            (backslash_to_slash (os_path_join req (urllib_quote item)), item)) := by
  have hno_nl : ∀ l ∈
      ([str "", str "<!DOCTYPE html>", str "<html>", str "<head>",
        str "    <title>Directory Listing for " ++ req ++ str "</title>",
        str "    <style>",
        str "        body \x7b font-family: monospace; \x7d",
        str "        a \x7b text-decoration: none; \x7d",
        str "        pre \x7b margin: 0; \x7d",
        str "    </style>", str "</head>", str "<body>",
        str "    <h1>Directory listing for " ++ req ++ str "</h1>",
        str "    <hr>", str "    <pre>"]
      ++ (if req = str "/" then []
          else [anchor_core (os_path_normpath (os_path_join req (str ".."))) (str "../")])
      ++ (py_sorted (fs.listdir path)).map (entry_core fs path req)
      ++ [str "", str "    </pre>", str "    <hr>", str "</body>", str "</html>"]),
      '\n' ∉ l := by
    have hreqnl : '\n' ∉ req := fun m => (hreq _ m).1 rfl
    intro l hl
    rcases List.mem_append.mp hl with hl | hl
    · rcases List.mem_append.mp hl with hl | hl
      · rcases List.mem_append.mp hl with hl | hl
        · simp only [List.mem_cons, List.not_mem_nil, or_false] at hl
          rcases hl with rfl | rfl | rfl | rfl | rfl | rfl | rfl | rfl | rfl | rfl |
            rfl | rfl | rfl | rfl | rfl
          · decide
          · decide
          · decide
          · decide
          · intro hm
            rcases List.mem_append.mp hm with hm | hm
            · rcases List.mem_append.mp hm with hm | hm
              · revert hm; decide
              · exact hreqnl hm
            · revert hm; decide
          · decide
          · decide
          · decide
          · decide
          · decide
          · decide
          · decide
          · intro hm
            rcases List.mem_append.mp hm with hm | hm
            · rcases List.mem_append.mp hm with hm | hm
              · revert hm; decide
              · exact hreqnl hm
            · revert hm; decide
          · decide
          · decide
        · by_cases h : req = str "/"
          · rw [if_pos h] at hl
            cases hl
          · rw [if_neg h] at hl
            simp only [List.mem_singleton] at hl
            subst hl
            exact anchor_core_no_nl _ _ (fun m => (hparent _ m).1 rfl) (by decide)
      · rcases List.mem_map.mp hl with ⟨item, hitem, rfl⟩
        have hit := hitems item (mem_py_sorted _ _ hitem)
        have hlink := entry_link_clean req item hreq
        have hitnl : '\n' ∉ item := fun m => (hit _ m).1 rfl
        simp only [entry_core]
        by_cases hd : fs.isDir (os_path_join path item)
        · rw [if_pos hd]
          apply anchor_core_no_nl
          · intro hm
            rcases List.mem_append.mp hm with hm | hm
            · exact hlink.1 hm
            · revert hm; decide
          · intro hm
            rcases List.mem_append.mp hm with hm | hm
            · exact hitnl hm
            · revert hm; decide
        · rw [if_neg hd]
          exact anchor_core_no_nl _ _ hlink.1 hitnl
    · simp only [List.mem_cons, List.not_mem_nil, or_false] at hl
      rcases hl with rfl | rfl | rfl | rfl | rfl <;> decide
  rw [extract_anchors, dir_listing_html_lines, split_nl_join _ hno_nl,
    List.filterMap_append, List.filterMap_append, List.filterMap_append,
    List.filterMap_append]
  have hpre : List.filterMap anchor_of_line
      [str "", str "<!DOCTYPE html>", str "<html>", str "<head>",
       str "    <title>Directory Listing for " ++ req ++ str "</title>",
       str "    <style>",
       str "        body \x7b font-family: monospace; \x7d",
       str "        a \x7b text-decoration: none; \x7d",
       str "        pre \x7b margin: 0; \x7d",
       str "    </style>", str "</head>", str "<body>",
       str "    <h1>Directory listing for " ++ req ++ str "</h1>",
       str "    <hr>", str "    <pre>"] = [] := rfl
  have hpost : List.filterMap anchor_of_line
      [str "", str "    </pre>", str "    <hr>", str "</body>", str "</html>"] = [] := rfl
  have hnil : List.filterMap anchor_of_line [[]] = [] := rfl
  have hpar : List.filterMap anchor_of_line
      (if req = str "/" then []
       else [anchor_core (os_path_normpath (os_path_join req (str ".."))) (str "../")]) =
      (if req = str "/" then []
       else [(os_path_normpath (os_path_join req (str "..")), str "../")]) := by
    by_cases h : req = str "/"
    · rw [if_pos h, if_pos h]
      rfl
    · rw [if_neg h, if_neg h, List.filterMap_cons,
        anchor_of_line_correct _ _ (fun m => (hparent _ m).2 rfl)]
      rfl
  have hent : List.filterMap anchor_of_line
      ((py_sorted (fs.listdir path)).map (entry_core fs path req)) =
      (py_sorted (fs.listdir path)).map (fun item =>
        if fs.isDir (os_path_join path item) then
          (backslash_to_slash (os_path_join req (urllib_quote item)) ++ str "/",
           item ++ str "/")
        else
          (backslash_to_slash (os_path_join req (urllib_quote item)), item)) := by
    rw [List.filterMap_map]
    apply filterMap_eq_map_of_forall
    intro item hitem
    have hlink := entry_link_clean req item hreq
    show anchor_of_line (entry_core fs path req item) = _
    simp only [entry_core]
    by_cases hd : fs.isDir (os_path_join path item)
    · rw [if_pos hd, if_pos hd]
      apply anchor_of_line_correct
      intro hm
      rcases List.mem_append.mp hm with hm | hm
      · exact hlink.2 hm
      · revert hm; decide
    · rw [if_neg hd, if_neg hd]
      exact anchor_of_line_correct _ _ hlink.2
  rw [hpre, hpost, hnil, hpar, hent]
  simp

/-- Witness for C7: a directory with entries `b.txt`, `sub` (a directory)
and `a b`, requested as `/d/`. -/
theorem dir_listing_anchors_witness :
    extract_anchors (dir_listing_html
        ⟨fun _ => true, fun s => decide (s = str "d/sub"),
         fun _ => [str "b.txt", str "sub", str "a b"], fun _ => none⟩
        (str "d") (str "/d/")) =
      (if (str "/d/" : PyStr) = str "/" then []
       else [(os_path_normpath (os_path_join (str "/d/") (str "..")), str "../")])
      ++ (py_sorted ((⟨fun _ => true, fun s => decide (s = str "d/sub"),
           fun _ => [str "b.txt", str "sub", str "a b"], fun _ => none⟩ : FS).listdir
             (str "d"))).map (fun item =>
          if (⟨fun _ => true, fun s => decide (s = str "d/sub"),
              fun _ => [str "b.txt", str "sub", str "a b"], fun _ => none⟩ : FS).isDir
                (os_path_join (str "d") item) then
            (backslash_to_slash (os_path_join (str "/d/") (urllib_quote item)) ++ str "/",
             item ++ str "/")
          else
            (backslash_to_slash (os_path_join (str "/d/") (urllib_quote item)), item)) :=
  dir_listing_anchors
    ⟨fun _ => true, fun s => decide (s = str "d/sub"),
     fun _ => [str "b.txt", str "sub", str "a b"], fun _ => none⟩
    (str "d") (str "/d/") (by decide) (by decide) (by decide)

end HttpSpec
